import Mathlib

/-!
Verification of the probe-rs Cortex-M4 debug engine
(`src/probe-rs/src/architecture/arm/core/m4.rs`) and the GDB remote-serial
worker (`src/gdb-server/src/worker.rs`).

The engine is embedded shallowly: machine words are `Nat` values kept below
`2 ^ 32`, the `Memory` capability is a stub whose successive `read32` results
are given by an oracle (`none` models a transport failure), and every completed
memory transaction is recorded in an event log.  `write32` on the stub always
succeeds (transport failures of writes are not needed by any property below);
a failed read is recorded as a `readFail` event.  The worker's dispatcher is
embedded as a pure function from the packet payload (a byte/char list) to the
optional reply, the session-break flag, the updated halt-await flag and the
list of calls made into the engine; a `none` result models a Rust panic
(a failed `.unwrap()`).
-/

namespace M4

/-! ### Register addresses (m4.rs `CoreRegister::ADDRESS` constants) -/

def DHCSR : Nat := 0xE000EDF0
def DCRSR : Nat := 0xE000EDF4
def DCRDR : Nat := 0xE000EDF8
def AIRCR : Nat := 0xE000ED0C
def DEMCR : Nat := 0xE000EDFC
def FP_CTRL : Nat := 0xE0002000
def FP_COMP : Nat := 0xE0002008

/-! ### Bit-field accessors

The `bitfield!` macro updates a field `hi:lo` of a 32-bit word by
`(x & !mask) | ((v << lo) & mask)` where `mask` covers bits `lo..hi`.  For a
contiguous mask on values this is exactly: keep the bits above the field,
insert the low `w` bits of `v`, keep the bits below the field, which is what
`setField`/`setBit` compute arithmetically on `Nat`. -/

def setField (lo w x v : Nat) : Nat :=
  (x / 2 ^ (lo + w) * 2 ^ w + v % 2 ^ w) * 2 ^ lo + x % 2 ^ lo

def getField (lo w x : Nat) : Nat := x / 2 ^ lo % 2 ^ w

def setBit (i : Nat) (b : Bool) (x : Nat) : Nat :=
  (x / 2 ^ (i + 1) * 2 + cond b 1 0) * 2 ^ i + x % 2 ^ i

/-- `Dhcsr::enable_write`: `self.0 &= !(0xffff << 16); self.0 |= 0xa05f << 16`.
For `x < 2 ^ 32` clearing bits 31:16 leaves `x % 2 ^ 16` and or-ing in the
key places `0xA05F` in bits 31:16. -/
def Dhcsr.enable_write (x : Nat) : Nat := 0xA05F * 2 ^ 16 + x % 2 ^ 16

/-- DHCSR value written by `halt()`: `set_c_halt(true); set_c_debugen(true);
enable_write()` starting from `Dhcsr(0)`. -/
def haltDhcsrValue : Nat := Dhcsr.enable_write (setBit 0 true (setBit 1 true 0))

/-- DHCSR value written by `run()`: `set_c_halt(false); set_c_debugen(true);
enable_write()` starting from `Dhcsr(0)`. -/
def runDhcsrValue : Nat := Dhcsr.enable_write (setBit 0 true (setBit 1 false 0))

/-- DHCSR value written by `step()`: `set_c_step(true); set_c_halt(false);
set_c_debugen(true); set_c_maskints(true); enable_write()` from `Dhcsr(0)`.
C_STEP is bit 2, C_MASKINTS bit 3. -/
def stepDhcsrValue : Nat :=
  Dhcsr.enable_write (setBit 3 true (setBit 0 true (setBit 1 false (setBit 2 true 0))))

/-- DHCSR value written by the C_DEBUGEN enable inside `reset_and_halt()`:
`set_c_debugen(true); enable_write()` from `Dhcsr(0)`. -/
def debugenDhcsrValue : Nat := Dhcsr.enable_write (setBit 0 true 0)

/-- AIRCR value written by `reset()`: `vectkey()` (0x05FA into bits 31:16)
then `set_sysresetreq(true)` (bit 2), from `Aircr(0)`. -/
def aircrResetValue : Nat := setBit 2 true (setField 16 16 0 0x05FA)

/-- DCRSR value selecting register `sel` for a read:
`set_regwnr(false); set_regsel(sel)` (REGWnR is bit 16, REGSEL bits 6:0). -/
def dcrsrReadValue (sel : Nat) : Nat := setField 0 7 (setBit 16 false 0) sel

/-- DCRSR value selecting register `sel` for a write:
`set_regwnr(true); set_regsel(sel)`. -/
def dcrsrWriteValue (sel : Nat) : Nat := setField 0 7 (setBit 16 true 0) sel

/-- `REGISTERS.PC` selector (0b000_1111). -/
def PC_SEL : Nat := 0x0F

/-- `REGISTERS.XPSR` selector (0b001_0000). -/
def XPSR_SEL : Nat := 0x10

/-- `FpCompX::breakpoint_configuration(address)`:
`comp_val = (address & 0x1fff_fffc) >> 2` (on `Nat`: clear bits 1:0 and
everything from bit 29 up, then shift right by 2, i.e. `address % 2^29 / 2^2`),
`replace_val = if address & 0x3 == 0 then 0b01 else 0b10`
(`address &&& 3 = address % 4`), then from `FpCompX(0)`:
`set_replace` (bits 31:30), `set_comp` (bits 28:2), `set_enable(true)` (bit 0). -/
def FpCompX.breakpoint_configuration (address : Nat) : Nat :=
  let comp_val := address % 2 ^ 29 / 2 ^ 2
  let replace_val : Nat := if address % 4 = 0 then 1 else 2
  setBit 0 true (setField 2 27 (setField 30 2 0 replace_val) comp_val)

end M4

namespace M4

/-! ### The stub memory and the event log -/

/-- Engine errors: `Error::Probe(DebugProbeError::Timeout)` from exhausted
polls and any transport failure surfaced from the `Memory` capability. -/
inductive Err
  | Transport
  | Timeout
deriving DecidableEq, Repr

/-- One completed (or failed) 32-bit memory transaction of the stub. -/
inductive Event
  | read (addr val : Nat)
  | readFail (addr : Nat)
  | write (addr val : Nat)
deriving DecidableEq, Repr

def Event.addr : Event → Nat
  | .read a _ => a
  | .readFail a => a
  | .write a _ => a

def Event.isWrite : Event → Bool
  | .write _ _ => true
  | _ => false

/-- Stub-memory state: the oracle gives the result of the `n`-th `read32`
issued so far (`none` = transport failure), `idx` counts issued reads, and
`log` records every transaction in order. -/
structure MState where
  oracle : Nat → Option Nat
  idx : Nat
  log : List Event

/-- `Memory::read32` against the stub: consult the oracle, reduce to 32 bits,
log the transaction. -/
def read32 (addr : Nat) (s : MState) : Except Err Nat × MState :=
  match s.oracle s.idx with
  | none => (Except.error Err.Transport,
      { s with idx := s.idx + 1, log := s.log ++ [Event.readFail addr] })
  | some v => (Except.ok (v % 4294967296),
      { s with idx := s.idx + 1, log := s.log ++ [Event.read addr (v % 4294967296)] })

/-- `Memory::write32` against the stub: always succeeds, logs the write. -/
def write32 (addr val : Nat) (s : MState) : MState :=
  { s with log := s.log ++ [Event.write addr (val % 4294967296)] }

/-! ### The polling loops -/

/-- The common body of `wait_for_core_halted` / `wait_for_core_register_transfer`:
`for _ in 0..n { let v = read32(DHCSR)?; if test(v) { return Ok(()) } };
Err(Timeout)`. -/
def wait_loop (test : Nat → Bool) : Nat → MState → Except Err Unit × MState
  | 0, s => (Except.error Err.Timeout, s)
  | n + 1, s =>
    match read32 DHCSR s with
    | (Except.error e, s') => (Except.error e, s')
    | (Except.ok v, s') => if test v then (Except.ok (), s') else wait_loop test n s'

/-- `M4::wait_for_core_halted`: poll DHCSR.S_HALT (bit 17) up to 100 times. -/
def wait_for_core_halted (s : MState) : Except Err Unit × MState :=
  wait_loop (fun v => v.testBit 17) 100 s

/-- `M4::wait_for_core_register_transfer`: poll DHCSR.S_REGRDY (bit 16) up to
100 times. -/
def wait_for_core_register_transfer (s : MState) : Except Err Unit × MState :=
  wait_loop (fun v => v.testBit 16) 100 s

/-- `M4::core_halted`: one DHCSR read, report S_HALT. -/
def core_halted (s : MState) : Except Err Bool × MState :=
  match read32 DHCSR s with
  | (Except.error e, s') => (Except.error e, s')
  | (Except.ok v, s') => (Except.ok (v.testBit 17), s')

/-! ### Core-register transfer and the lifecycle operations -/

/-- `M4::read_core_reg`: write DCRSR (read select), wait for S_REGRDY, read
DCRDR. -/
def read_core_reg (sel : Nat) (s : MState) : Except Err Nat × MState :=
  let s1 := write32 DCRSR (dcrsrReadValue sel) s
  match wait_for_core_register_transfer s1 with
  | (Except.error e, s2) => (Except.error e, s2)
  | (Except.ok _, s2) => read32 DCRDR s2

/-- `M4::write_core_reg`: write DCRDR (data), write DCRSR (write select),
wait for S_REGRDY. -/
def write_core_reg (sel value : Nat) (s : MState) : Except Err Unit × MState :=
  let s1 := write32 DCRDR value s
  let s2 := write32 DCRSR (dcrsrWriteValue sel) s1
  wait_for_core_register_transfer s2

/-- `CoreInformation { pc }`. -/
structure CoreInformation where
  pc : Nat
deriving DecidableEq, Repr

/-- `M4::halt`: one DHCSR write (C_HALT, C_DEBUGEN, debug key), wait for the
halted state, read the PC. -/
def halt (s : MState) : Except Err CoreInformation × MState :=
  let s1 := write32 DHCSR haltDhcsrValue s
  match wait_for_core_halted s1 with
  | (Except.error e, s2) => (Except.error e, s2)
  | (Except.ok _, s2) =>
    match read_core_reg PC_SEL s2 with
    | (Except.error e, s3) => (Except.error e, s3)
    | (Except.ok pc, s3) => (Except.ok ⟨pc⟩, s3)

/-- `M4::run`: one DHCSR write (C_HALT clear, C_DEBUGEN, debug key); does not
wait. -/
def run (s : MState) : Except Err Unit × MState :=
  (Except.ok (), write32 DHCSR runDhcsrValue s)

/-- `M4::step`: one DHCSR write (C_STEP, C_MASKINTS, C_DEBUGEN, debug key),
wait for the halted state, read the PC. -/
def step (s : MState) : Except Err CoreInformation × MState :=
  let s1 := write32 DHCSR stepDhcsrValue s
  match wait_for_core_halted s1 with
  | (Except.error e, s2) => (Except.error e, s2)
  | (Except.ok _, s2) =>
    match read_core_reg PC_SEL s2 with
    | (Except.error e, s3) => (Except.error e, s3)
    | (Except.ok pc, s3) => (Except.ok ⟨pc⟩, s3)

/-- `M4::reset`: one AIRCR write (VECTKEY + SYSRESETREQ); does not wait. -/
def reset (s : MState) : Except Err Unit × MState :=
  (Except.ok (), write32 AIRCR aircrResetValue s)

/-- The part of `M4::reset_and_halt` after DEMCR has been read (and
VC_CORERESET enabled if it was clear): reset, wait for the halted state, fix
the XPSR Thumb bit (bit 24) if clear, restore the saved DEMCR value `dm`,
read the PC.  Split out of `reset_and_halt` only to keep proofs modular; the
composition below is the source's statement sequence verbatim. -/
def resetAndHaltTail (dm : Nat) (s4 : MState) : Except Err CoreInformation × MState :=
  match reset s4 with
  | (Except.error e, s5) => (Except.error e, s5)
  | (Except.ok _, s5) =>
    match wait_for_core_halted s5 with
    | (Except.error e, s6) => (Except.error e, s6)
    | (Except.ok _, s6) =>
      match read_core_reg XPSR_SEL s6 with
      | (Except.error e, s7) => (Except.error e, s7)
      | (Except.ok x, s7) =>
        match (if x &&& 16777216 = 0
               then write_core_reg XPSR_SEL (x ||| 16777216) s7
               else (Except.ok (), s7)) with
        | (Except.error e, s8) => (Except.error e, s8)
        | (Except.ok _, s8) =>
          let s9 := write32 DEMCR dm s8
          match read_core_reg PC_SEL s9 with
          | (Except.error e, s10) => (Except.error e, s10)
          | (Except.ok pc, s10) => (Except.ok ⟨pc⟩, s10)

/-- `M4::reset_and_halt`: enable C_DEBUGEN if clear, set DEMCR.VC_CORERESET if
clear (saving the original DEMCR), reset, wait for the halted state, fix the
XPSR Thumb bit (bit 24) if clear, restore the original DEMCR, read the PC. -/
def reset_and_halt (s : MState) : Except Err CoreInformation × MState :=
  match read32 DHCSR s with
  | (Except.error e, s1) => (Except.error e, s1)
  | (Except.ok d0, s1) =>
    let s2 := if d0.testBit 0 then s1 else write32 DHCSR debugenDhcsrValue s1
    match read32 DEMCR s2 with
    | (Except.error e, s3) => (Except.error e, s3)
    | (Except.ok dm, s3) =>
      let s4 := if dm.testBit 0 then s3 else write32 DEMCR (setBit 0 true dm) s3
      resetAndHaltTail dm s4

/-! ### Trace observations -/

/-- Values written to address `a`, in order. -/
def writesAt (a : Nat) : List Event → List Nat
  | [] => []
  | Event.write b v :: l => if b = a then v :: writesAt a l else writesAt a l
  | Event.read _ _ :: l => writesAt a l
  | Event.readFail _ :: l => writesAt a l

/-- Values successfully read from address `a`, in order. -/
def readsAt (a : Nat) : List Event → List Nat
  | [] => []
  | Event.read b v :: l => if b = a then v :: readsAt a l else readsAt a l
  | Event.write _ _ :: l => readsAt a l
  | Event.readFail _ :: l => readsAt a l

/-- A completed or failed read of DHCSR (the only events a polling loop
produces). -/
def dhcsrReadEv (e : Event) : Bool := !e.isWrite && e.addr == DHCSR

theorem writesAt_append (a : Nat) (l₁ l₂ : List Event) :
    writesAt a (l₁ ++ l₂) = writesAt a l₁ ++ writesAt a l₂ := by
  induction l₁ with
  | nil => rfl
  | cons e l ih =>
    cases e with
    | read b v => simpa [writesAt] using ih
    | readFail b => simpa [writesAt] using ih
    | write b v =>
      by_cases h : b = a <;> simp [writesAt, h, ih]

theorem readsAt_append (a : Nat) (l₁ l₂ : List Event) :
    readsAt a (l₁ ++ l₂) = readsAt a l₁ ++ readsAt a l₂ := by
  induction l₁ with
  | nil => rfl
  | cons e l ih =>
    cases e with
    | write b v => simpa [readsAt] using ih
    | readFail b => simpa [readsAt] using ih
    | read b v =>
      by_cases h : b = a <;> simp [readsAt, h, ih]

theorem writesAt_nil_of_all {a : Nat} {p : Event → Bool} {l : List Event}
    (hp : ∀ b v, p (Event.write b v) = true → b ≠ a) (h : l.all p = true) :
    writesAt a l = [] := by
  induction l with
  | nil => rfl
  | cons e l ih =>
    simp only [List.all_cons, Bool.and_eq_true] at h
    cases e with
    | read b v => simpa [writesAt] using ih h.2
    | readFail b => simpa [writesAt] using ih h.2
    | write b v => simp [writesAt, hp b v h.1, ih h.2]

theorem readsAt_nil_of_all {a : Nat} {p : Event → Bool} {l : List Event}
    (hp : ∀ b v, p (Event.read b v) = true → b ≠ a) (h : l.all p = true) :
    readsAt a l = [] := by
  induction l with
  | nil => rfl
  | cons e l ih =>
    simp only [List.all_cons, Bool.and_eq_true] at h
    cases e with
    | write b v => simpa [readsAt] using ih h.2
    | readFail b => simpa [readsAt] using ih h.2
    | read b v => simp [readsAt, hp b v h.1, ih h.2]

theorem dhcsrReadEv_read {b v : Nat} (h : dhcsrReadEv (Event.read b v) = true) :
    b = DHCSR := by
  simpa [dhcsrReadEv, Event.isWrite, Event.addr] using h

theorem dhcsrReadEv_not_write {b v : Nat} :
    dhcsrReadEv (Event.write b v) = false := by
  simp [dhcsrReadEv, Event.isWrite]

theorem writesAt_nil_of_dhcsrRead {a : Nat} {l : List Event}
    (h : l.all dhcsrReadEv = true) : writesAt a l = [] :=
  writesAt_nil_of_all (fun b v hw => by simp [dhcsrReadEv_not_write] at hw) h

theorem readsAt_nil_of_dhcsrRead {a : Nat} (hne : a ≠ DHCSR) {l : List Event}
    (h : l.all dhcsrReadEv = true) : readsAt a l = [] :=
  readsAt_nil_of_all (fun b v hr => by rw [dhcsrReadEv_read hr]; exact fun hc => hne hc.symm) h

/-! ### Pure characterization of the polling loop -/

/-- What `wait_loop test n` does starting at read index `i`: the result, the
events it appends, and the number of oracle slots it consumes. -/
def pollTrace (test : Nat → Bool) (oracle : Nat → Option Nat) :
    Nat → Nat → Except Err Unit × List Event × Nat
  | _, 0 => (Except.error Err.Timeout, [], 0)
  | i, n + 1 =>
    match oracle i with
    | none => (Except.error Err.Transport, [Event.readFail DHCSR], 1)
    | some v =>
      if test (v % 4294967296) then (Except.ok (), [Event.read DHCSR (v % 4294967296)], 1)
      else
        let r := pollTrace test oracle (i + 1) n
        (r.1, Event.read DHCSR (v % 4294967296) :: r.2.1, r.2.2 + 1)

theorem wait_loop_eq (test : Nat → Bool) :
    ∀ (n : Nat) (s : MState),
      wait_loop test n s =
        ((pollTrace test s.oracle s.idx n).1,
         { s with idx := s.idx + (pollTrace test s.oracle s.idx n).2.2,
                  log := s.log ++ (pollTrace test s.oracle s.idx n).2.1 }) := by
  intro n
  induction n with
  | zero => intro s; simp [wait_loop, pollTrace]
  | succ n ih =>
    intro s
    cases ho : s.oracle s.idx with
    | none => simp [wait_loop, read32, ho, pollTrace]
    | some v =>
      by_cases ht : test (v % 4294967296)
      · simp [wait_loop, read32, ho, pollTrace, ht]
      · simp only [wait_loop, read32, ho, pollTrace, ht, if_false, ite_false]
        rw [ih]
        simp [Nat.add_assoc, Nat.add_comm 1]

theorem pollTrace_all (test : Nat → Bool) (oracle : Nat → Option Nat) :
    ∀ (n i : Nat), (pollTrace test oracle i n).2.1.all dhcsrReadEv = true := by
  intro n
  induction n with
  | zero => intro i; simp [pollTrace]
  | succ n ih =>
    intro i
    cases ho : oracle i with
    | none => simp [pollTrace, ho, dhcsrReadEv, Event.isWrite, Event.addr]
    | some v =>
      by_cases ht : test (v % 4294967296) <;>
        simp [pollTrace, ho, ht, dhcsrReadEv, Event.isWrite, Event.addr, ih]

theorem pollTrace_length (test : Nat → Bool) (oracle : Nat → Option Nat) :
    ∀ (n i : Nat), (pollTrace test oracle i n).2.1.length ≤ n := by
  intro n
  induction n with
  | zero => intro i; simp [pollTrace]
  | succ n ih =>
    intro i
    cases ho : oracle i with
    | none => simp [pollTrace, ho]
    | some v =>
      by_cases ht : test (v % 4294967296)
      · simp [pollTrace, ho, ht]
      · simpa [pollTrace, ho, ht, Nat.succ_le_succ_iff] using ih (i + 1)

theorem pollTrace_timeout (test : Nat → Bool) (oracle : Nat → Option Nat) :
    ∀ (n i : Nat),
      (∀ k, k < n → ∃ v, oracle (i + k) = some v ∧ test (v % 4294967296) = false) →
      (pollTrace test oracle i n).1 = Except.error Err.Timeout ∧
      (pollTrace test oracle i n).2.1.length = n := by
  intro n
  induction n with
  | zero => intro i _; simp [pollTrace]
  | succ n ih =>
    intro i h
    obtain ⟨v, hv, htv⟩ := h 0 (Nat.succ_pos n)
    rw [Nat.add_zero] at hv
    have hrest : ∀ k, k < n → ∃ u, oracle (i + 1 + k) = some u ∧ test (u % 4294967296) = false := by
      intro k hk
      have := h (k + 1) (Nat.succ_lt_succ hk)
      simpa [Nat.add_assoc, Nat.add_comm 1 k] using this
    have := ih (i + 1) hrest
    simp [pollTrace, hv, htv, this.1, this.2]

theorem pollTrace_success (test : Nat → Bool) (oracle : Nat → Option Nat) :
    ∀ (n i j v : Nat), j < n → oracle (i + j) = some v → test (v % 4294967296) = true →
      (∀ k, k < j → ∃ u, oracle (i + k) = some u ∧ test (u % 4294967296) = false) →
      (pollTrace test oracle i n).1 = Except.ok () ∧
      (pollTrace test oracle i n).2.1.length = j + 1 := by
  intro n
  induction n with
  | zero => intro i j v hj; omega
  | succ n ih =>
    intro i j v hj hv htv hbefore
    cases j with
    | zero =>
      rw [Nat.add_zero] at hv
      simp [pollTrace, hv, htv]
    | succ j =>
      obtain ⟨u, hu, htu⟩ := hbefore 0 (Nat.succ_pos j)
      rw [Nat.add_zero] at hu
      have hv' : oracle (i + 1 + j) = some v := by
        simpa [Nat.add_assoc, Nat.add_comm 1 j] using hv
      have hbefore' : ∀ k, k < j → ∃ w, oracle (i + 1 + k) = some w ∧ test (w % 4294967296) = false := by
        intro k hk
        have := hbefore (k + 1) (Nat.succ_lt_succ hk)
        simpa [Nat.add_assoc, Nat.add_comm 1 k] using this
      have := ih (i + 1) j v (Nat.lt_of_succ_lt_succ hj) hv' htv hbefore'
      simp [pollTrace, hu, htu, this.1, this.2]

theorem pollTrace_transport (test : Nat → Bool) (oracle : Nat → Option Nat) :
    ∀ (n i j : Nat), j < n → oracle (i + j) = none →
      (∀ k, k < j → ∃ u, oracle (i + k) = some u ∧ test (u % 4294967296) = false) →
      (pollTrace test oracle i n).1 = Except.error Err.Transport := by
  intro n
  induction n with
  | zero => intro i j hj; omega
  | succ n ih =>
    intro i j hj hv hbefore
    cases j with
    | zero =>
      rw [Nat.add_zero] at hv
      simp [pollTrace, hv]
    | succ j =>
      obtain ⟨u, hu, htu⟩ := hbefore 0 (Nat.succ_pos j)
      rw [Nat.add_zero] at hu
      have hv' : oracle (i + 1 + j) = none := by
        simpa [Nat.add_assoc, Nat.add_comm 1 j] using hv
      have hbefore' : ∀ k, k < j → ∃ w, oracle (i + 1 + k) = some w ∧ test (w % 4294967296) = false := by
        intro k hk
        have := hbefore (k + 1) (Nat.succ_lt_succ hk)
        simpa [Nat.add_assoc, Nat.add_comm 1 k] using this
      have := ih (i + 1) j (Nat.lt_of_succ_lt_succ hj) hv' hbefore'
      simp [pollTrace, hu, htu, this]

/-! ### Trace shapes of the composite operations -/

theorem all_mono {p q : Event → Bool} (h : ∀ e, p e = true → q e = true) :
    ∀ {l : List Event}, l.all p = true → l.all q = true := by
  intro l hl
  rw [List.all_eq_true] at hl ⊢
  exact fun e he => h e (hl e he)

theorem dhcsrReadEv_nonwrite {e : Event} (h : dhcsrReadEv e = true) : (!e.isWrite) = true := by
  simp only [dhcsrReadEv, Bool.and_eq_true] at h
  exact h.1

/-- Any outcome of `read_core_reg`: one DCRSR write, then only non-write events;
on success the delta ends with the DCRDR read of the returned value. -/
theorem read_core_reg_char (sel : Nat) (s : MState) :
    ∃ l, (read_core_reg sel s).2.log
        = s.log ++ Event.write DCRSR (dcrsrReadValue sel % 4294967296) :: l
      ∧ l.all (fun e => !e.isWrite) = true
      ∧ (∀ x, (read_core_reg sel s).1 = Except.ok x →
           x < 4294967296 ∧
           ∃ l', l = l' ++ [Event.read DCRDR x] ∧ l'.all dhcsrReadEv = true) := by
  rcases hP : pollTrace (fun v => v.testBit 16) s.oracle s.idx 100 with ⟨r, l, c⟩
  have hall : l.all dhcsrReadEv = true := by
    have := pollTrace_all (fun v => v.testBit 16) s.oracle 100 s.idx
    rw [hP] at this
    exact this
  cases r with
  | error e =>
    refine ⟨l, ?_, ?_, ?_⟩
    · simp [read_core_reg, wait_for_core_register_transfer, wait_loop_eq, write32, hP]
    · exact all_mono (fun e => dhcsrReadEv_nonwrite) hall
    · intro x hx
      simp [read_core_reg, wait_for_core_register_transfer, wait_loop_eq, write32, hP] at hx
  | ok u =>
    cases ho : s.oracle (s.idx + c) with
    | none =>
      refine ⟨l ++ [Event.readFail DCRDR], ?_, ?_, ?_⟩
      · simp [read_core_reg, wait_for_core_register_transfer, wait_loop_eq, write32, hP,
          read32, ho]
      · rw [List.all_append, all_mono (fun e => dhcsrReadEv_nonwrite) hall]
        simp [Event.isWrite]
      · intro x hx
        simp [read_core_reg, wait_for_core_register_transfer, wait_loop_eq, write32, hP,
          read32, ho] at hx
    | some v =>
      refine ⟨l ++ [Event.read DCRDR (v % 4294967296)], ?_, ?_, ?_⟩
      · simp [read_core_reg, wait_for_core_register_transfer, wait_loop_eq, write32, hP,
          read32, ho]
      · rw [List.all_append, all_mono (fun e => dhcsrReadEv_nonwrite) hall]
        simp [Event.isWrite]
      · intro x hx
        have hx' : v % 4294967296 = x := by
          simpa [read_core_reg, wait_for_core_register_transfer, wait_loop_eq, write32, hP,
            read32, ho] using hx
        subst hx'
        exact ⟨Nat.mod_lt _ (by norm_num), l, rfl, hall⟩

/-- Any outcome of `write_core_reg`: the DCRDR data write, the DCRSR select
write, then only DHCSR poll reads. -/
theorem write_core_reg_char (sel value : Nat) (s : MState) :
    ∃ l, (write_core_reg sel value s).2.log
        = s.log ++ Event.write DCRDR (value % 4294967296)
             :: Event.write DCRSR (dcrsrWriteValue sel % 4294967296) :: l
      ∧ l.all dhcsrReadEv = true := by
  rcases hP : pollTrace (fun v => v.testBit 16) s.oracle s.idx 100 with ⟨r, l, c⟩
  have hall : l.all dhcsrReadEv = true := by
    have := pollTrace_all (fun v => v.testBit 16) s.oracle 100 s.idx
    rw [hP] at this
    exact this
  refine ⟨l, ?_, hall⟩
  simp [write_core_reg, wait_for_core_register_transfer, wait_loop_eq, write32, hP]

theorem writesAt_nil_of_nonwrite {a : Nat} {l : List Event}
    (h : l.all (fun e => !e.isWrite) = true) : writesAt a l = [] :=
  writesAt_nil_of_all (fun b v hw => by simp [Event.isWrite] at hw) h

theorem readsAt_DEMCR_nil {l : List Event} (h : l.all dhcsrReadEv = true) :
    readsAt DEMCR l = [] :=
  readsAt_nil_of_dhcsrRead (by decide) h

theorem readsAt_DCRDR_nil {l : List Event} (h : l.all dhcsrReadEv = true) :
    readsAt DCRDR l = [] :=
  readsAt_nil_of_dhcsrRead (by decide) h

/-- The five MMIO addresses are pairwise distinct (the inequalities the trace
computations need, as rewrite rules). -/
theorem addr_eq_false :
    ((AIRCR = DHCSR) = False) ∧ ((DCRSR = DHCSR) = False) ∧ ((DCRDR = DHCSR) = False) ∧
    ((DEMCR = DHCSR) = False) ∧ ((AIRCR = DEMCR) = False) ∧ ((DCRSR = DEMCR) = False) ∧
    ((DCRDR = DEMCR) = False) ∧ ((DHCSR = DEMCR) = False) ∧ ((AIRCR = DCRDR) = False) ∧
    ((DCRSR = DCRDR) = False) ∧ ((DEMCR = DCRDR) = False) ∧ ((DHCSR = DCRDR) = False) ∧
    ((AIRCR = DCRSR) = False) ∧ ((DCRDR = DCRSR) = False) ∧ ((DEMCR = DCRSR) = False) ∧
    ((DHCSR = DCRSR) = False) := by
  refine ⟨?_, ?_, ?_, ?_, ?_, ?_, ?_, ?_, ?_, ?_, ?_, ?_, ?_, ?_, ?_, ?_⟩ <;>
    simp [AIRCR, DEMCR, DCRSR, DCRDR, DHCSR]

/-- The four register-value constants, evaluated. -/
theorem dhcsr_value_consts :
    haltDhcsrValue = 0xA05F0003 ∧ runDhcsrValue = 0xA05F0001 ∧
    stepDhcsrValue = 0xA05F000D ∧ debugenDhcsrValue = 0xA05F0001 ∧
    aircrResetValue = 0x05FA0004 ∧
    dcrsrReadValue XPSR_SEL = 0x10 ∧ dcrsrWriteValue XPSR_SEL = 0x10010 ∧
    dcrsrReadValue PC_SEL = 0x0F := by
  refine ⟨?_, ?_, ?_, ?_, ?_, ?_, ?_, ?_⟩ <;> decide

/-- `x &&& 2^24 = 0` is exactly "bit 24 of x is clear". -/
theorem and_two_pow_24_eq_zero (x : Nat) : (x &&& 16777216 = 0) ↔ x.testBit 24 = false := by
  have h : x &&& 16777216 = (x.testBit 24).toNat * 2 ^ 24 := by
    have := Nat.and_two_pow x 24
    norm_num at this ⊢
    exact this
  rw [h]
  cases x.testBit 24 <;> simp

/-- Full trace characterization of `resetAndHaltTail`: it never writes DHCSR;
on success it reads XPSR then PC through DCRDR, performs the Thumb-bit
write-back exactly when bit 24 of the XPSR value was clear, and its one DEMCR
write is the restore of `dm`. -/
theorem resetAndHaltTail_char (dm : Nat) (s4 : MState) :
    ∃ l, (resetAndHaltTail dm s4).2.log = s4.log ++ l
      ∧ writesAt DHCSR l = []
      ∧ (∀ inf, (resetAndHaltTail dm s4).1 = Except.ok inf →
          ∃ x, x < 4294967296 ∧
            readsAt DEMCR l = [] ∧
            writesAt DEMCR l = [dm % 4294967296] ∧
            readsAt DCRDR l = [x, inf.pc] ∧
            (if x &&& 16777216 = 0
             then writesAt DCRDR l = [(x ||| 16777216) % 4294967296] ∧
                  writesAt DCRSR l
                    = [dcrsrReadValue XPSR_SEL, dcrsrWriteValue XPSR_SEL, dcrsrReadValue PC_SEL] ∧
                  x.testBit 24 = false
             else writesAt DCRDR l = [] ∧
                  writesAt DCRSR l = [dcrsrReadValue XPSR_SEL, dcrsrReadValue PC_SEL] ∧
                  x.testBit 24 = true)) := by
  rcases hP : pollTrace (fun v => v.testBit 17) s4.oracle s4.idx 100 with ⟨r1, l1, c1⟩
  have hall1 : l1.all dhcsrReadEv = true := by
    have := pollTrace_all (fun v => v.testBit 17) s4.oracle 100 s4.idx
    rw [hP] at this; exact this
  have hwait : wait_for_core_halted (write32 AIRCR aircrResetValue s4)
      = (r1, MState.mk s4.oracle (s4.idx + c1)
          ((s4.log ++ [Event.write AIRCR (aircrResetValue % 4294967296)]) ++ l1)) := by
    rw [wait_for_core_halted, wait_loop_eq]
    simp [write32, hP]
  cases r1 with
  | error e =>
    refine ⟨Event.write AIRCR (aircrResetValue % 4294967296) :: l1, ?_, ?_, ?_⟩
    · simp [resetAndHaltTail, reset, hwait]
    · simp [writesAt, addr_eq_false, writesAt_nil_of_dhcsrRead hall1]
    · intro inf h
      simp [resetAndHaltTail, reset, hwait] at h
  | ok u =>
    obtain ⟨s6, hs6log, hwait'⟩ :
        ∃ s6 : MState,
          s6.log = (s4.log ++ [Event.write AIRCR (aircrResetValue % 4294967296)]) ++ l1 ∧
          wait_for_core_halted (write32 AIRCR aircrResetValue s4) = (Except.ok u, s6) :=
      ⟨_, rfl, hwait⟩
    rcases hx : read_core_reg XPSR_SEL s6 with ⟨rx, s7⟩
    obtain ⟨lx, hlog7, hnwx, hokx⟩ := read_core_reg_char XPSR_SEL s6
    rw [hx] at hlog7 hokx
    dsimp at hlog7 hokx
    cases rx with
    | error e =>
      refine ⟨Event.write AIRCR (aircrResetValue % 4294967296)
          :: (l1 ++ Event.write DCRSR (dcrsrReadValue XPSR_SEL % 4294967296) :: lx), ?_, ?_, ?_⟩
      · simp [resetAndHaltTail, reset, hwait', hx, hlog7, hs6log]
      · simp [writesAt, writesAt_append, addr_eq_false,
          writesAt_nil_of_dhcsrRead hall1, writesAt_nil_of_nonwrite hnwx]
      · intro inf h
        simp [resetAndHaltTail, reset, hwait', hx] at h
    | ok x =>
      obtain ⟨hxlt, l2, hlx, hall2⟩ := hokx x rfl
      subst hlx
      by_cases hb : x &&& 16777216 = 0
      · -- Thumb bit clear: write back XPSR with bit 24 set
        rcases hw : write_core_reg XPSR_SEL (x ||| 16777216) s7 with ⟨rw, s8⟩
        obtain ⟨l3, hlog8, hall3⟩ := write_core_reg_char XPSR_SEL (x ||| 16777216) s7
        rw [hw] at hlog8
        dsimp at hlog8
        cases rw with
        | error e =>
          refine ⟨Event.write AIRCR (aircrResetValue % 4294967296)
              :: (l1 ++ Event.write DCRSR (dcrsrReadValue XPSR_SEL % 4294967296)
              :: ((l2 ++ [Event.read DCRDR x])
              ++ Event.write DCRDR ((x ||| 16777216) % 4294967296)
              :: Event.write DCRSR (dcrsrWriteValue XPSR_SEL % 4294967296) :: l3)), ?_, ?_, ?_⟩
          · simp [resetAndHaltTail, reset, hwait', hx, hb, hw, hlog8, hlog7, hs6log]
          · simp [writesAt, writesAt_append, addr_eq_false,
              writesAt_nil_of_dhcsrRead hall1, writesAt_nil_of_dhcsrRead hall2,
              writesAt_nil_of_dhcsrRead hall3]
          · intro inf h
            simp [resetAndHaltTail, reset, hwait', hx, hb, hw] at h
        | ok u2 =>
          rcases hpc : read_core_reg PC_SEL (write32 DEMCR dm s8) with ⟨rp, s10⟩
          obtain ⟨lp, hlog10, hnwp, hokp⟩ := read_core_reg_char PC_SEL (write32 DEMCR dm s8)
          rw [hpc] at hlog10 hokp
          dsimp at hlog10 hokp
          cases rp with
          | error e =>
            refine ⟨Event.write AIRCR (aircrResetValue % 4294967296)
                :: (l1 ++ Event.write DCRSR (dcrsrReadValue XPSR_SEL % 4294967296)
                :: ((l2 ++ [Event.read DCRDR x])
                ++ Event.write DCRDR ((x ||| 16777216) % 4294967296)
                :: Event.write DCRSR (dcrsrWriteValue XPSR_SEL % 4294967296)
                :: (l3 ++ Event.write DEMCR (dm % 4294967296)
                :: Event.write DCRSR (dcrsrReadValue PC_SEL % 4294967296) :: lp))), ?_, ?_, ?_⟩
            · simp only [resetAndHaltTail, reset, hwait', hx, hb, if_pos, hw, hpc]
              simp [hlog10, write32, hlog8, hlog7, hs6log]
            · simp [writesAt, writesAt_append, addr_eq_false,
                writesAt_nil_of_dhcsrRead hall1, writesAt_nil_of_dhcsrRead hall2,
                writesAt_nil_of_dhcsrRead hall3, writesAt_nil_of_nonwrite hnwp]
            · intro inf h
              simp [resetAndHaltTail, reset, hwait', hx, hb, hw, hpc] at h
          | ok pc =>
            obtain ⟨hpclt, l4, hlp, hall4⟩ := hokp pc rfl
            subst hlp
            refine ⟨Event.write AIRCR (aircrResetValue % 4294967296)
                :: (l1 ++ Event.write DCRSR (dcrsrReadValue XPSR_SEL % 4294967296)
                :: ((l2 ++ [Event.read DCRDR x])
                ++ Event.write DCRDR ((x ||| 16777216) % 4294967296)
                :: Event.write DCRSR (dcrsrWriteValue XPSR_SEL % 4294967296)
                :: (l3 ++ Event.write DEMCR (dm % 4294967296)
                :: Event.write DCRSR (dcrsrReadValue PC_SEL % 4294967296)
                :: (l4 ++ [Event.read DCRDR pc])))), ?_, ?_, ?_⟩
            · simp only [resetAndHaltTail, reset, hwait', hx, hb, if_pos, hw, hpc]
              simp [hlog10, write32, hlog8, hlog7, hs6log]
            · simp [writesAt, writesAt_append, addr_eq_false,
                writesAt_nil_of_dhcsrRead hall1, writesAt_nil_of_dhcsrRead hall2,
                writesAt_nil_of_dhcsrRead hall3, writesAt_nil_of_dhcsrRead hall4]
            · intro inf h
              have hinf : inf = ⟨pc⟩ := by
                simp [resetAndHaltTail, reset, hwait', hx, hb, hw, hpc] at h
                exact h.symm
              subst hinf
              refine ⟨x, hxlt, ?_, ?_, ?_, ?_⟩
              · simp [readsAt, readsAt_append, addr_eq_false,
                  readsAt_DEMCR_nil hall1, readsAt_DCRDR_nil hall1,
                  readsAt_DEMCR_nil hall2, readsAt_DCRDR_nil hall2,
                  readsAt_DEMCR_nil hall3, readsAt_DCRDR_nil hall3,
                  readsAt_DEMCR_nil hall4, readsAt_DCRDR_nil hall4]
              · simp [writesAt, writesAt_append, addr_eq_false,
                  writesAt_nil_of_dhcsrRead hall1, writesAt_nil_of_dhcsrRead hall2,
                  writesAt_nil_of_dhcsrRead hall3, writesAt_nil_of_dhcsrRead hall4]
              · simp [readsAt, readsAt_append, addr_eq_false,
                  readsAt_DEMCR_nil hall1, readsAt_DCRDR_nil hall1,
                  readsAt_DEMCR_nil hall2, readsAt_DCRDR_nil hall2,
                  readsAt_DEMCR_nil hall3, readsAt_DCRDR_nil hall3,
                  readsAt_DEMCR_nil hall4, readsAt_DCRDR_nil hall4]
              · rw [if_pos hb]
                refine ⟨?_, ?_, (and_two_pow_24_eq_zero x).mp hb⟩
                · simp [writesAt, writesAt_append, addr_eq_false,
                    writesAt_nil_of_dhcsrRead hall1, writesAt_nil_of_dhcsrRead hall2,
                    writesAt_nil_of_dhcsrRead hall3, writesAt_nil_of_dhcsrRead hall4]
                · have h1 : dcrsrReadValue XPSR_SEL % 4294967296 = dcrsrReadValue XPSR_SEL := by
                    decide
                  have h2 : dcrsrWriteValue XPSR_SEL % 4294967296 = dcrsrWriteValue XPSR_SEL := by
                    decide
                  have h3 : dcrsrReadValue PC_SEL % 4294967296 = dcrsrReadValue PC_SEL := by
                    decide
                  simp [writesAt, writesAt_append, addr_eq_false,
                    writesAt_nil_of_dhcsrRead hall1, writesAt_nil_of_dhcsrRead hall2,
                    writesAt_nil_of_dhcsrRead hall3, writesAt_nil_of_dhcsrRead hall4,
                    h1, h2, h3]
      · -- Thumb bit already set: no XPSR write-back
        rcases hpc : read_core_reg PC_SEL (write32 DEMCR dm s7) with ⟨rp, s10⟩
        obtain ⟨lp, hlog10, hnwp, hokp⟩ := read_core_reg_char PC_SEL (write32 DEMCR dm s7)
        rw [hpc] at hlog10 hokp
        dsimp at hlog10 hokp
        cases rp with
        | error e =>
          refine ⟨Event.write AIRCR (aircrResetValue % 4294967296)
              :: (l1 ++ Event.write DCRSR (dcrsrReadValue XPSR_SEL % 4294967296)
              :: ((l2 ++ [Event.read DCRDR x])
              ++ Event.write DEMCR (dm % 4294967296)
              :: Event.write DCRSR (dcrsrReadValue PC_SEL % 4294967296) :: lp)), ?_, ?_, ?_⟩
          · simp only [resetAndHaltTail, reset, hwait', hx, if_neg hb, hpc]
            simp [hlog10, write32, hlog7, hs6log]
          · simp [writesAt, writesAt_append, addr_eq_false,
              writesAt_nil_of_dhcsrRead hall1, writesAt_nil_of_dhcsrRead hall2,
              writesAt_nil_of_nonwrite hnwp]
          · intro inf h
            simp [resetAndHaltTail, reset, hwait', hx, hb, hpc] at h
        | ok pc =>
          obtain ⟨hpclt, l4, hlp, hall4⟩ := hokp pc rfl
          subst hlp
          refine ⟨Event.write AIRCR (aircrResetValue % 4294967296)
              :: (l1 ++ Event.write DCRSR (dcrsrReadValue XPSR_SEL % 4294967296)
              :: ((l2 ++ [Event.read DCRDR x])
              ++ Event.write DEMCR (dm % 4294967296)
              :: Event.write DCRSR (dcrsrReadValue PC_SEL % 4294967296)
              :: (l4 ++ [Event.read DCRDR pc]))), ?_, ?_, ?_⟩
          · simp only [resetAndHaltTail, reset, hwait', hx, if_neg hb, hpc]
            simp [hlog10, write32, hlog7, hs6log]
          · simp [writesAt, writesAt_append, addr_eq_false,
              writesAt_nil_of_dhcsrRead hall1, writesAt_nil_of_dhcsrRead hall2,
              writesAt_nil_of_dhcsrRead hall4]
          · intro inf h
            have hinf : inf = ⟨pc⟩ := by
              simp [resetAndHaltTail, reset, hwait', hx, hb, hpc] at h
              exact h.symm
            subst hinf
            refine ⟨x, hxlt, ?_, ?_, ?_, ?_⟩
            · simp [readsAt, readsAt_append, addr_eq_false,
                readsAt_DEMCR_nil hall1, readsAt_DCRDR_nil hall1,
                readsAt_DEMCR_nil hall2, readsAt_DCRDR_nil hall2,
                readsAt_DEMCR_nil hall4, readsAt_DCRDR_nil hall4]
            · simp [writesAt, writesAt_append, addr_eq_false,
                writesAt_nil_of_dhcsrRead hall1, writesAt_nil_of_dhcsrRead hall2,
                writesAt_nil_of_dhcsrRead hall4]
            · simp [readsAt, readsAt_append, addr_eq_false,
                readsAt_DEMCR_nil hall1, readsAt_DCRDR_nil hall1,
                readsAt_DEMCR_nil hall2, readsAt_DCRDR_nil hall2,
                readsAt_DEMCR_nil hall4, readsAt_DCRDR_nil hall4]
            · rw [if_neg hb]
              have hbt : x.testBit 24 = true := by
                rcases hx24 : x.testBit 24 with _ | _
                · exact absurd ((and_two_pow_24_eq_zero x).mpr hx24) hb
                · rfl
              refine ⟨?_, ?_, hbt⟩
              · simp [writesAt, writesAt_append, addr_eq_false,
                  writesAt_nil_of_dhcsrRead hall1, writesAt_nil_of_dhcsrRead hall2,
                  writesAt_nil_of_dhcsrRead hall4]
              · have h1 : dcrsrReadValue XPSR_SEL % 4294967296 = dcrsrReadValue XPSR_SEL := by
                  decide
                have h3 : dcrsrReadValue PC_SEL % 4294967296 = dcrsrReadValue PC_SEL := by
                  decide
                simp [writesAt, writesAt_append, addr_eq_false,
                  writesAt_nil_of_dhcsrRead hall1, writesAt_nil_of_dhcsrRead hall2,
                  writesAt_nil_of_dhcsrRead hall4, h1, h3]

/-- Composition step: the conclusions of `reset_and_halt_char` follow once
the head of the run (everything before `reset()`) is accounted for. -/
theorem reset_and_halt_assemble (s : MState) (dm : Nat) (s4 : MState) (hd : List Event)
    (hdm : dm < 4294967296)
    (hred : reset_and_halt s = resetAndHaltTail dm s4)
    (hs4log : s4.log = s.log ++ hd)
    (hdDH : writesAt DHCSR hd = [] ∨ writesAt DHCSR hd = [debugenDhcsrValue])
    (hdDEMCRr : readsAt DEMCR hd = [dm])
    (hdDCRDRr : readsAt DCRDR hd = [])
    (hdDCRDRw : writesAt DCRDR hd = [])
    (hdDCRSRw : writesAt DCRSR hd = []) :
    ∃ l, (reset_and_halt s).2.log = s.log ++ l
      ∧ (writesAt DHCSR l = [] ∨ writesAt DHCSR l = [debugenDhcsrValue])
      ∧ (∀ inf, (reset_and_halt s).1 = Except.ok inf →
          ∃ dm' x, dm' < 4294967296 ∧ x < 4294967296 ∧
            readsAt DEMCR l = [dm'] ∧
            (writesAt DEMCR l).getLast? = some dm' ∧
            readsAt DCRDR l = [x, inf.pc] ∧
            (if x &&& 16777216 = 0
             then writesAt DCRDR l = [(x ||| 16777216) % 4294967296] ∧
                  writesAt DCRSR l
                    = [dcrsrReadValue XPSR_SEL, dcrsrWriteValue XPSR_SEL, dcrsrReadValue PC_SEL] ∧
                  x.testBit 24 = false
             else writesAt DCRDR l = [] ∧
                  writesAt DCRSR l = [dcrsrReadValue XPSR_SEL, dcrsrReadValue PC_SEL] ∧
                  x.testBit 24 = true)) := by
  obtain ⟨lt, htlog, htDH, htsucc⟩ := resetAndHaltTail_char dm s4
  refine ⟨hd ++ lt, ?_, ?_, ?_⟩
  · rw [hred, htlog, hs4log, List.append_assoc]
  · rw [writesAt_append, htDH, List.append_nil]
    exact hdDH
  · intro inf hinf
    rw [hred] at hinf
    obtain ⟨x, hxlt, htder, htdew, htdcr, hif⟩ := htsucc inf hinf
    have hmodm : dm % 4294967296 = dm := Nat.mod_eq_of_lt hdm
    refine ⟨dm, x, hdm, hxlt, ?_, ?_, ?_, ?_⟩
    · rw [readsAt_append, hdDEMCRr, htder, List.append_nil]
    · rw [writesAt_append, htdew, hmodm, List.getLast?_concat]
    · rw [readsAt_append, hdDCRDRr, htdcr]
      rfl
    · by_cases hxb : x &&& 16777216 = 0
      · rw [if_pos hxb] at hif ⊢
        obtain ⟨h1, h2, h3⟩ := hif
        rw [writesAt_append, writesAt_append, hdDCRDRw, hdDCRSRw, h1, h2]
        exact ⟨rfl, rfl, h3⟩
      · rw [if_neg hxb] at hif ⊢
        obtain ⟨h1, h2, h3⟩ := hif
        rw [writesAt_append, writesAt_append, hdDCRDRw, hdDCRSRw, h1, h2]
        exact ⟨rfl, rfl, h3⟩

/-- Full trace characterization of `reset_and_halt`: its only possible DHCSR
write is the C_DEBUGEN enable; on success, the DEMCR value read at the start
is also the last value written to DEMCR, the first DCRDR read is the XPSR
value and the Thumb-bit write-back happens exactly when its bit 24 was clear. -/
theorem reset_and_halt_char (s : MState) :
    ∃ l, (reset_and_halt s).2.log = s.log ++ l
      ∧ (writesAt DHCSR l = [] ∨ writesAt DHCSR l = [debugenDhcsrValue])
      ∧ (∀ inf, (reset_and_halt s).1 = Except.ok inf →
          ∃ dm x, dm < 4294967296 ∧ x < 4294967296 ∧
            readsAt DEMCR l = [dm] ∧
            (writesAt DEMCR l).getLast? = some dm ∧
            readsAt DCRDR l = [x, inf.pc] ∧
            (if x &&& 16777216 = 0
             then writesAt DCRDR l = [(x ||| 16777216) % 4294967296] ∧
                  writesAt DCRSR l
                    = [dcrsrReadValue XPSR_SEL, dcrsrWriteValue XPSR_SEL, dcrsrReadValue PC_SEL] ∧
                  x.testBit 24 = false
             else writesAt DCRDR l = [] ∧
                  writesAt DCRSR l = [dcrsrReadValue XPSR_SEL, dcrsrReadValue PC_SEL] ∧
                  x.testBit 24 = true)) := by
  have hmodd : debugenDhcsrValue % 4294967296 = debugenDhcsrValue := by decide
  cases ho0 : s.oracle s.idx with
  | none =>
    refine ⟨[Event.readFail DHCSR], ?_, Or.inl ?_, ?_⟩
    · simp [reset_and_halt, read32, ho0]
    · simp [writesAt]
    · intro inf h
      simp [reset_and_halt, read32, ho0] at h
  | some v0 =>
    by_cases hb0 : (v0 % 4294967296).testBit 0
    · cases ho1 : s.oracle (s.idx + 1) with
      | none =>
        refine ⟨[Event.read DHCSR (v0 % 4294967296), Event.readFail DEMCR], ?_, Or.inl ?_, ?_⟩
        · simp [reset_and_halt, read32, write32, ho0, ho1, hb0]
        · simp [writesAt, addr_eq_false]
        · intro inf h
          simp [reset_and_halt, read32, write32, ho0, ho1, hb0] at h
      | some v1 =>
        by_cases hb1 : v1 % 4294967296 % 2 = 1
        · refine reset_and_halt_assemble s (v1 % 4294967296)
            (MState.mk s.oracle (s.idx + 1 + 1)
              ((s.log ++ [Event.read DHCSR (v0 % 4294967296)])
                ++ [Event.read DEMCR (v1 % 4294967296)]))
            [Event.read DHCSR (v0 % 4294967296), Event.read DEMCR (v1 % 4294967296)]
            (by omega) ?_ (by simp) (Or.inl (by simp [writesAt, addr_eq_false]))
            (by simp [readsAt, addr_eq_false]) (by simp [readsAt, addr_eq_false])
            (by simp [writesAt, addr_eq_false]) (by simp [writesAt, addr_eq_false])
          simp [reset_and_halt, read32, write32, ho0, ho1, hb0, hb1]
        · refine reset_and_halt_assemble s (v1 % 4294967296)
            (MState.mk s.oracle (s.idx + 1 + 1)
              (((s.log ++ [Event.read DHCSR (v0 % 4294967296)])
                ++ [Event.read DEMCR (v1 % 4294967296)])
                ++ [Event.write DEMCR (setBit 0 true (v1 % 4294967296) % 4294967296)]))
            [Event.read DHCSR (v0 % 4294967296), Event.read DEMCR (v1 % 4294967296),
              Event.write DEMCR (setBit 0 true (v1 % 4294967296) % 4294967296)]
            (by omega) ?_ (by simp) (Or.inl (by simp [writesAt, addr_eq_false]))
            (by simp [readsAt, addr_eq_false]) (by simp [readsAt, addr_eq_false])
            (by simp [writesAt, addr_eq_false]) (by simp [writesAt, addr_eq_false])
          simp [reset_and_halt, read32, write32, ho0, ho1, hb0, hb1]
    · cases ho1 : s.oracle (s.idx + 1) with
      | none =>
        refine ⟨[Event.read DHCSR (v0 % 4294967296), Event.write DHCSR debugenDhcsrValue,
            Event.readFail DEMCR], ?_, Or.inr ?_, ?_⟩
        · simp [reset_and_halt, read32, write32, ho0, ho1, hb0, hmodd]
        · simp [writesAt, addr_eq_false]
        · intro inf h
          simp [reset_and_halt, read32, write32, ho0, ho1, hb0] at h
      | some v1 =>
        by_cases hb1 : v1 % 4294967296 % 2 = 1
        · refine reset_and_halt_assemble s (v1 % 4294967296)
            (MState.mk s.oracle (s.idx + 1 + 1)
              (((s.log ++ [Event.read DHCSR (v0 % 4294967296)])
                ++ [Event.write DHCSR debugenDhcsrValue])
                ++ [Event.read DEMCR (v1 % 4294967296)]))
            [Event.read DHCSR (v0 % 4294967296), Event.write DHCSR debugenDhcsrValue,
              Event.read DEMCR (v1 % 4294967296)]
            (by omega) ?_ (by simp) (Or.inr (by simp [writesAt, addr_eq_false]))
            (by simp [readsAt, addr_eq_false]) (by simp [readsAt, addr_eq_false])
            (by simp [writesAt, addr_eq_false]) (by simp [writesAt, addr_eq_false])
          simp [reset_and_halt, read32, write32, ho0, ho1, hb0, hb1, hmodd]
        · refine reset_and_halt_assemble s (v1 % 4294967296)
            (MState.mk s.oracle (s.idx + 1 + 1)
              ((((s.log ++ [Event.read DHCSR (v0 % 4294967296)])
                ++ [Event.write DHCSR debugenDhcsrValue])
                ++ [Event.read DEMCR (v1 % 4294967296)])
                ++ [Event.write DEMCR (setBit 0 true (v1 % 4294967296) % 4294967296)]))
            [Event.read DHCSR (v0 % 4294967296), Event.write DHCSR debugenDhcsrValue,
              Event.read DEMCR (v1 % 4294967296),
              Event.write DEMCR (setBit 0 true (v1 % 4294967296) % 4294967296)]
            (by omega) ?_ (by simp) (Or.inr (by simp [writesAt, addr_eq_false]))
            (by simp [readsAt, addr_eq_false]) (by simp [readsAt, addr_eq_false])
            (by simp [writesAt, addr_eq_false]) (by simp [writesAt, addr_eq_false])
          simp [reset_and_halt, read32, write32, ho0, ho1, hb0, hb1, hmodd]

/-! ### Claim C7: the breakpoint register configuration -/

/-- Bridge: `(address & 0x1FFF_FFFC) >> 2` in mask form equals the arithmetic
form used in the embedding. -/
theorem comp_val_mask_form (address : Nat) :
    (address &&& 0x1FFFFFFC) >>> 2 = address % 2 ^ 29 / 2 ^ 2 := by
  apply Nat.eq_of_testBit_eq
  intro i
  have hmask : (0x1FFFFFFC : Nat) = (2 ^ 27 - 1) <<< 2 := by decide
  have hdiv : address % 2 ^ 29 / 2 ^ 2 = (address % 2 ^ 29) >>> 2 := by
    rw [Nat.shiftRight_eq_div_pow]
  rw [Nat.testBit_shiftRight, Nat.testBit_and, hmask, Nat.testBit_shiftLeft,
    Nat.testBit_two_pow_sub_one, hdiv, Nat.testBit_shiftRight, Nat.testBit_mod_two_pow]
  rcases hb : address.testBit (2 + i) <;> simp [hb] <;> omega

/-- Bridge: `address & 0x3` equals `address % 4`. -/
theorem and_three_mod_four (address : Nat) : address &&& 3 = address % 4 := by
  have := Nat.and_pow_two_sub_one_eq_mod address 2
  norm_num at this
  omega

/-- C7: for every address, `breakpoint_configuration` sets the `comp` field
(bits 28:2) to `(address & 0x1FFF_FFFC) >> 2`, the `replace` field (bits 31:30)
to `0b01` when `address & 0x3 == 0` and `0b10` otherwise, and the `enable` bit
(bit 0) to 1; at `0x0800_09A4` the register value is `0x4800_09A5`. -/
theorem breakpoint_configuration_correct :
    ∀ address : Nat,
      getField 2 27 (FpCompX.breakpoint_configuration address)
          = (address &&& 0x1FFFFFFC) >>> 2 ∧
      getField 30 2 (FpCompX.breakpoint_configuration address)
          = (if address &&& 3 = 0 then 1 else 2) ∧
      getField 0 1 (FpCompX.breakpoint_configuration address) = 1 ∧
      FpCompX.breakpoint_configuration 0x080009A4 = 0x480009A5 := by
  intro address
  rw [comp_val_mask_form, and_three_mod_four]
  refine ⟨?_, ?_, ?_, by decide⟩ <;>
  · simp only [FpCompX.breakpoint_configuration, getField, setField, setBit]
    by_cases h4 : address % 4 = 0 <;> simp [h4] <;> norm_num <;> omega

/-! ### Claim C6: the polling loops are bounded and classified -/

/-- Everything claim C6 states, for a generic 100-round poll loop. -/
theorem wait_loop_spec (test : Nat → Bool) (s : MState) :
    (∃ l, (wait_loop test 100 s).2.log = s.log ++ l ∧ l.length ≤ 100 ∧
        l.all dhcsrReadEv = true) ∧
    ((∀ k, k < 100 → ∃ v, s.oracle (s.idx + k) = some v ∧ test (v % 4294967296) = false) →
        (wait_loop test 100 s).1 = Except.error Err.Timeout ∧
        ∃ l, (wait_loop test 100 s).2.log = s.log ++ l ∧ l.length = 100) ∧
    (∀ j v, j < 100 → s.oracle (s.idx + j) = some v → test (v % 4294967296) = true →
        (∀ k, k < j → ∃ u, s.oracle (s.idx + k) = some u ∧ test (u % 4294967296) = false) →
        (wait_loop test 100 s).1 = Except.ok () ∧
        ∃ l, (wait_loop test 100 s).2.log = s.log ++ l ∧ l.length = j + 1) ∧
    (∀ j, j < 100 → s.oracle (s.idx + j) = none →
        (∀ k, k < j → ∃ u, s.oracle (s.idx + k) = some u ∧ test (u % 4294967296) = false) →
        (wait_loop test 100 s).1 = Except.error Err.Transport) := by
  rcases hP : pollTrace test s.oracle s.idx 100 with ⟨r, l, c⟩
  have hrw := wait_loop_eq test 100 s
  rw [hP] at hrw
  have hlen := pollTrace_length test s.oracle 100 s.idx
  have hall := pollTrace_all test s.oracle 100 s.idx
  rw [hP] at hlen hall
  refine ⟨⟨l, by rw [hrw], hlen, hall⟩, ?_, ?_, ?_⟩
  · intro h
    have := pollTrace_timeout test s.oracle 100 s.idx h
    rw [hP] at this
    exact ⟨by rw [hrw]; exact this.1, l, by rw [hrw], this.2⟩
  · intro j v hj hv htv hbefore
    have := pollTrace_success test s.oracle 100 s.idx j v hj hv htv hbefore
    rw [hP] at this
    exact ⟨by rw [hrw]; exact this.1, l, by rw [hrw], this.2⟩
  · intro j hj hv hbefore
    have := pollTrace_transport test s.oracle 100 s.idx j hj hv hbefore
    rw [hP] at this
    rw [hrw]
    exact this

/-- C6: `wait_for_core_halted` and `wait_for_core_register_transfer` issue at
most 100 DHCSR reads; a failing read surfaces the transport error, a read with
the awaited bit (S_HALT resp. S_REGRDY) set ends the loop successfully right
there, and 100 reads with the bit clear return Timeout with exactly 100 reads
issued and nothing after them. -/
theorem wait_loops_bounded (s : MState) :
    ((∃ l, (wait_for_core_halted s).2.log = s.log ++ l ∧ l.length ≤ 100 ∧
        l.all dhcsrReadEv = true) ∧
     ((∀ k, k < 100 → ∃ v, s.oracle (s.idx + k) = some v ∧
          (v % 4294967296).testBit 17 = false) →
        (wait_for_core_halted s).1 = Except.error Err.Timeout ∧
        ∃ l, (wait_for_core_halted s).2.log = s.log ++ l ∧ l.length = 100) ∧
     (∀ j v, j < 100 → s.oracle (s.idx + j) = some v →
        (v % 4294967296).testBit 17 = true →
        (∀ k, k < j → ∃ u, s.oracle (s.idx + k) = some u ∧
          (u % 4294967296).testBit 17 = false) →
        (wait_for_core_halted s).1 = Except.ok () ∧
        ∃ l, (wait_for_core_halted s).2.log = s.log ++ l ∧ l.length = j + 1) ∧
     (∀ j, j < 100 → s.oracle (s.idx + j) = none →
        (∀ k, k < j → ∃ u, s.oracle (s.idx + k) = some u ∧
          (u % 4294967296).testBit 17 = false) →
        (wait_for_core_halted s).1 = Except.error Err.Transport)) ∧
    ((∃ l, (wait_for_core_register_transfer s).2.log = s.log ++ l ∧ l.length ≤ 100 ∧
        l.all dhcsrReadEv = true) ∧
     ((∀ k, k < 100 → ∃ v, s.oracle (s.idx + k) = some v ∧
          (v % 4294967296).testBit 16 = false) →
        (wait_for_core_register_transfer s).1 = Except.error Err.Timeout ∧
        ∃ l, (wait_for_core_register_transfer s).2.log = s.log ++ l ∧ l.length = 100) ∧
     (∀ j v, j < 100 → s.oracle (s.idx + j) = some v →
        (v % 4294967296).testBit 16 = true →
        (∀ k, k < j → ∃ u, s.oracle (s.idx + k) = some u ∧
          (u % 4294967296).testBit 16 = false) →
        (wait_for_core_register_transfer s).1 = Except.ok () ∧
        ∃ l, (wait_for_core_register_transfer s).2.log = s.log ++ l ∧ l.length = j + 1) ∧
     (∀ j, j < 100 → s.oracle (s.idx + j) = none →
        (∀ k, k < j → ∃ u, s.oracle (s.idx + k) = some u ∧
          (u % 4294967296).testBit 16 = false) →
        (wait_for_core_register_transfer s).1 = Except.error Err.Transport)) :=
  ⟨wait_loop_spec (fun v => v.testBit 17) s, wait_loop_spec (fun v => v.testBit 16) s⟩

/-- Witness for C6: on a stub that always reads 0 the halt poll times out; on
one that always reads `0x20000` (S_HALT set) it succeeds at the first read; on
one whose reads fail it returns the transport error; the register-transfer
poll succeeds at once on constant `0x10000` (S_REGRDY set). -/
theorem wait_loops_bounded_witness :
    ((wait_for_core_halted ⟨fun _ => some 0, 0, []⟩).1 = Except.error Err.Timeout ∧
      ∃ l, (wait_for_core_halted ⟨fun _ => some 0, 0, []⟩).2.log = [] ++ l ∧
        l.length = 100) ∧
    ((wait_for_core_halted ⟨fun _ => some 131072, 0, []⟩).1 = Except.ok () ∧
      ∃ l, (wait_for_core_halted ⟨fun _ => some 131072, 0, []⟩).2.log = [] ++ l ∧
        l.length = 0 + 1) ∧
    (wait_for_core_halted ⟨fun _ => none, 0, []⟩).1 = Except.error Err.Transport ∧
    ((wait_for_core_register_transfer ⟨fun _ => some 65536, 0, []⟩).1 = Except.ok () ∧
      ∃ l, (wait_for_core_register_transfer ⟨fun _ => some 65536, 0, []⟩).2.log = [] ++ l ∧
        l.length = 0 + 1) :=
  ⟨(wait_loops_bounded ⟨fun _ => some 0, 0, []⟩).1.2.1
      (fun k hk => ⟨0, rfl, by decide⟩),
   (wait_loops_bounded ⟨fun _ => some 131072, 0, []⟩).1.2.2.1 0 131072 (by decide) rfl
      (by decide) (fun k hk => absurd hk (by omega)),
   (wait_loops_bounded ⟨fun _ => none, 0, []⟩).1.2.2.2 0 (by decide) rfl
      (fun k hk => absurd hk (by omega)),
   (wait_loops_bounded ⟨fun _ => some 65536, 0, []⟩).2.2.2.1 0 65536 (by decide) rfl
      (by decide) (fun k hk => absurd hk (by omega))⟩

/-! ### Claim C1: every DHCSR write carries the debug key -/

/-- Common trace shape of `halt` and `step` (they differ only in the DHCSR
value written): the DHCSR write happens first, and no later event writes
DHCSR. -/
theorem haltStep_log (w : Nat) (s : MState) :
    ∃ l, (match wait_for_core_halted (write32 DHCSR w s) with
          | (Except.error e, s2) => (Except.error e, s2)
          | (Except.ok _, s2) =>
            match read_core_reg PC_SEL s2 with
            | (Except.error e, s3) => (Except.error e, s3)
            | (Except.ok pc, s3) => (Except.ok (⟨pc⟩ : CoreInformation), s3)).2.log
        = s.log ++ Event.write DHCSR (w % 4294967296) :: l ∧ writesAt DHCSR l = [] := by
  rcases hP : pollTrace (fun v => v.testBit 17) s.oracle s.idx 100 with ⟨r, l1, c1⟩
  have hall1 : l1.all dhcsrReadEv = true := by
    have := pollTrace_all (fun v => v.testBit 17) s.oracle 100 s.idx
    rw [hP] at this; exact this
  have hwait : wait_for_core_halted (write32 DHCSR w s)
      = (r, MState.mk s.oracle (s.idx + c1)
          ((s.log ++ [Event.write DHCSR (w % 4294967296)]) ++ l1)) := by
    rw [wait_for_core_halted, wait_loop_eq]
    simp [write32, hP]
  cases r with
  | error e =>
    refine ⟨l1, ?_, writesAt_nil_of_dhcsrRead hall1⟩
    simp [hwait]
  | ok u =>
    obtain ⟨s2, hs2log, hwait'⟩ :
        ∃ s2 : MState,
          s2.log = (s.log ++ [Event.write DHCSR (w % 4294967296)]) ++ l1 ∧
          wait_for_core_halted (write32 DHCSR w s) = (Except.ok u, s2) :=
      ⟨_, rfl, hwait⟩
    rcases hpc : read_core_reg PC_SEL s2 with ⟨rp, s3⟩
    obtain ⟨lp, hlog3, hnwp, _⟩ := read_core_reg_char PC_SEL s2
    rw [hpc] at hlog3
    dsimp at hlog3
    refine ⟨l1 ++ Event.write DCRSR (dcrsrReadValue PC_SEL % 4294967296) :: lp, ?_, ?_⟩
    · cases rp <;> simp [hwait', hpc, hlog3, hs2log]
    · simp [writesAt_append, writesAt, addr_eq_false,
        writesAt_nil_of_dhcsrRead hall1, writesAt_nil_of_nonwrite hnwp]

/-- C1: every DHCSR write issued by `halt`, `run`, `step` or `reset_and_halt`
carries the debug key 0xA05F in bits 31:16; `halt` writes DHCSR exactly once —
first, with C_HALT (bit 1) and C_DEBUGEN (bit 0) set and the key present — and
afterwards never writes DHCSR again. -/
theorem dhcsr_writes_carry_key (s : MState) :
    ((run s).2.log = s.log ++ [Event.write DHCSR runDhcsrValue]
      ∧ runDhcsrValue / 2 ^ 16 % 2 ^ 16 = 0xA05F) ∧
    (∃ l, (step s).2.log = s.log ++ Event.write DHCSR stepDhcsrValue :: l
      ∧ writesAt DHCSR l = []
      ∧ stepDhcsrValue / 2 ^ 16 % 2 ^ 16 = 0xA05F) ∧
    (∃ l, (reset_and_halt s).2.log = s.log ++ l
      ∧ (writesAt DHCSR l = [] ∨ writesAt DHCSR l = [debugenDhcsrValue])
      ∧ debugenDhcsrValue / 2 ^ 16 % 2 ^ 16 = 0xA05F) ∧
    (∃ l, (halt s).2.log = s.log ++ Event.write DHCSR haltDhcsrValue :: l
      ∧ writesAt DHCSR l = []
      ∧ haltDhcsrValue = 0xA05F0003
      ∧ haltDhcsrValue / 2 ^ 16 % 2 ^ 16 = 0xA05F
      ∧ haltDhcsrValue.testBit 1 = true ∧ haltDhcsrValue.testBit 0 = true) := by
  refine ⟨⟨?_, by decide⟩, ?_, ?_, ?_⟩
  · have h : runDhcsrValue % 4294967296 = runDhcsrValue := by decide
    simp [run, write32, h]
  · obtain ⟨l, hl, hw⟩ := haltStep_log stepDhcsrValue s
    have h : stepDhcsrValue % 4294967296 = stepDhcsrValue := by decide
    rw [h] at hl
    exact ⟨l, hl, hw, by decide⟩
  · obtain ⟨l, hl, hw, _⟩ := reset_and_halt_char s
    exact ⟨l, hl, hw, by decide⟩
  · obtain ⟨l, hl, hw⟩ := haltStep_log haltDhcsrValue s
    have h : haltDhcsrValue % 4294967296 = haltDhcsrValue := by decide
    rw [h] at hl
    exact ⟨l, hl, hw, by decide, by decide, by decide, by decide⟩

/-! ### Claims C4 and C5: reset_and_halt restores DEMCR and fixes the Thumb bit -/

/-- C4: whenever `reset_and_halt` returns successfully, the last value written
to the DEMCR address equals the DEMCR value read at the start of the call. -/
theorem reset_and_halt_restores_demcr (s : MState) (inf : CoreInformation)
    (h : (reset_and_halt s).1 = Except.ok inf) :
    ∃ l d, (reset_and_halt s).2.log = s.log ++ l ∧
      (readsAt DEMCR l).head? = some d ∧
      (writesAt DEMCR l).getLast? = some d := by
  obtain ⟨l, hlog, _, hsucc⟩ := reset_and_halt_char s
  obtain ⟨dm, x, _, _, hr, hwl, _, _⟩ := hsucc inf h
  exact ⟨l, dm, hlog, by rw [hr]; rfl, hwl⟩

/-- The stub run used by the C4 witness: DHCSR reads 1 (C_DEBUGEN set), DEMCR
reads 1 (VC_CORERESET set), the halt and register-transfer polls succeed at
once, XPSR reads with bit 24 already set, the PC reads 0x2000. -/
def witnessState : MState :=
  ⟨fun i => ([1, 1, 0x20000, 0x10000, 0x1000000, 0x10000, 0x2000].drop i).head?, 0, []⟩

/-- Witness for C4 at a concrete stub. -/
theorem reset_and_halt_restores_demcr_witness :
    ∃ l d, (reset_and_halt witnessState).2.log = witnessState.log ++ l ∧
      (readsAt DEMCR l).head? = some d ∧
      (writesAt DEMCR l).getLast? = some d :=
  reset_and_halt_restores_demcr witnessState ⟨0x2000⟩ rfl

/-- C5: whenever `reset_and_halt` returns successfully, the XPSR value `x`
read after the post-reset halt (the first DCRDR read of the run) is written
back as `x ||| 2^24` — through DCRDR with the XPSR write-select — exactly when
its bit 24 was clear; when bit 24 was already set no core-register write
happens at all. -/
theorem reset_and_halt_sets_thumb_bit (s : MState) (inf : CoreInformation)
    (h : (reset_and_halt s).1 = Except.ok inf) :
    ∃ l x, (reset_and_halt s).2.log = s.log ++ l ∧
      (readsAt DCRDR l).head? = some x ∧
      (if x.testBit 24 = false
       then writesAt DCRDR l = [x ||| 2 ^ 24] ∧ (x ||| 2 ^ 24).testBit 24 = true ∧
            writesAt DCRSR l
              = [dcrsrReadValue XPSR_SEL, dcrsrWriteValue XPSR_SEL, dcrsrReadValue PC_SEL]
       else writesAt DCRDR l = [] ∧
            writesAt DCRSR l = [dcrsrReadValue XPSR_SEL, dcrsrReadValue PC_SEL]) := by
  obtain ⟨l, hlog, _, hsucc⟩ := reset_and_halt_char s
  obtain ⟨dm, x, _, hxlt, _, _, hrd, hif⟩ := hsucc inf h
  refine ⟨l, x, hlog, by rw [hrd]; rfl, ?_⟩
  by_cases hxb : x &&& 16777216 = 0
  · rw [if_pos hxb] at hif
    obtain ⟨h1, h2, h3⟩ := hif
    rw [if_pos h3]
    have hor : x ||| 16777216 < 4294967296 := by
      have h1 : x < 2 ^ 32 := by norm_num; exact hxlt
      have h2 : (16777216 : Nat) < 2 ^ 32 := by norm_num
      have h3 := Nat.or_lt_two_pow h1 h2
      norm_num at h3
      exact h3
    have hmod : (x ||| 16777216) % 4294967296 = x ||| 16777216 := Nat.mod_eq_of_lt hor
    rw [hmod] at h1
    have h24 : (x ||| 2 ^ 24).testBit 24 = true := by
      rw [Nat.testBit_or, Nat.testBit_two_pow_self]
      simp
    have hp : (2 : Nat) ^ 24 = 16777216 := by norm_num
    exact ⟨by rw [hp]; exact h1, h24, h2⟩
  · rw [if_neg hxb] at hif
    obtain ⟨h1, h2, h3⟩ := hif
    rw [if_neg (by rw [h3]; simp)]
    exact ⟨h1, h2⟩

/-- The stub run used by the C5 witness: same as `witnessState` but XPSR reads
0 (Thumb bit clear), so the write-back path runs. -/
def witnessState2 : MState :=
  ⟨fun i => ([1, 1, 0x20000, 0x10000, 0, 0x10000, 0x10000, 0x2000].drop i).head?, 0, []⟩

/-- Witness for C5 at a concrete stub whose XPSR comes back with bit 24
clear. -/
theorem reset_and_halt_sets_thumb_bit_witness :
    ∃ l x, (reset_and_halt witnessState2).2.log = witnessState2.log ++ l ∧
      (readsAt DCRDR l).head? = some x ∧
      (if x.testBit 24 = false
       then writesAt DCRDR l = [x ||| 2 ^ 24] ∧ (x ||| 2 ^ 24).testBit 24 = true ∧
            writesAt DCRSR l
              = [dcrsrReadValue XPSR_SEL, dcrsrWriteValue XPSR_SEL, dcrsrReadValue PC_SEL]
       else writesAt DCRDR l = [] ∧
            writesAt DCRSR l = [dcrsrReadValue XPSR_SEL, dcrsrReadValue PC_SEL]) :=
  reset_and_halt_sets_thumb_bit witnessState2 ⟨0x2000⟩ rfl

end M4

namespace Gdb

/-! ## The RSP worker (`src/gdb-server/src/worker.rs`)

The dispatcher (`handler`) is embedded as a pure function over the packet
payload (the `CheckedPacket` byte data, modelled as a `List Char` of ASCII
bytes).  Engine operations are abstracted: the calls the handler makes are
recorded in order, and the values the engine would return (core-register
reads, memory bytes) come from an oracle; every call itself succeeds, which
is the stub behaviour the claims below quantify over.  A `none` result of
`handler` models a Rust panic (a failed `.unwrap()`), after which no reply is
produced. -/

def str (s : String) : List Char := s.toList

/-- Byte-prefix test, `packet.data.starts_with(..)`. -/
def pfx : List Char → List Char → Bool
  | [], _ => true
  | _ :: _, [] => false
  | a :: as, b :: bs => a == b && pfx as bs

/-- The regex crate's `\w` on the ASCII payloads the worker handles:
`[0-9A-Za-z_]`. -/
def isWordChar (c : Char) : Bool :=
  decide (('0' ≤ c ∧ c ≤ '9') ∨ ('a' ≤ c ∧ c ≤ 'z') ∨ ('A' ≤ c ∧ c ≤ 'Z') ∨ c = '_')

/-- The `[01]` character class of the `X` packet's `data` capture. -/
def is01 (c : Char) : Bool := c == '0' || c == '1'

/-- The value of one hex digit, accepting both cases
(`u32::from_str_radix(_, 16)` digit handling). -/
def hexDigit (c : Char) : Option Nat :=
  if '0' ≤ c ∧ c ≤ '9' then some (c.toNat - 48)
  else if 'a' ≤ c ∧ c ≤ 'f' then some (c.toNat - 87)
  else if 'A' ≤ c ∧ c ≤ 'F' then some (c.toNat - 55)
  else none

def isHexDigit (c : Char) : Bool := (hexDigit c).isSome

/-- The numeric value of a hex string (used to state what a successful parse
returns). -/
def hexVal (s : List Char) : Nat :=
  s.foldl (fun a c => a * 16 + (hexDigit c).getD 0) 0

/-- `uN::from_str_radix(s, 16)` for the unsigned type with maximum `bound`:
fails on an empty string, a non-hex character, or overflow (each checked
multiply-add stays within the type). -/
def from_str_radix_16 (bound : Nat) (s : List Char) : Option Nat :=
  if s.isEmpty then none
  else
    s.foldl
      (fun acc c =>
        match acc, hexDigit c with
        | some a, some d => if a * 16 + d ≤ bound then some (a * 16 + d) else none
        | _, _ => none)
      (some 0)

/-- Unanchored leftmost-first match of the regex crate: try a match at every
start position, earliest first.  The per-position matchers below use greedy
`takeWhile` runs without backtracking, which is exact for these patterns: each
`\w+` is followed by a literal (`,` or `:`) that is never a word character, so
shrinking a maximal run can never make the literal match. -/
def firstMatch {α : Type} (m : List Char → Option α) : List Char → Option α
  | [] => m []
  | c :: cs =>
    match m (c :: cs) with
    | some r => some r
    | none => firstMatch m cs

/-- `p(?P<reg>\w+)` at one position. -/
def matchP : List Char → Option (List Char)
  | 'p' :: rest =>
    let reg := rest.takeWhile isWordChar
    if reg.isEmpty then none else some reg
  | _ => none

/-- `m(?P<addr>\w+),(?P<length>\w+)` at one position. -/
def matchM : List Char → Option (List Char × List Char)
  | 'm' :: rest =>
    let a := rest.takeWhile isWordChar
    if a.isEmpty then none
    else
      match rest.dropWhile isWordChar with
      | ',' :: r2 =>
        let b := r2.takeWhile isWordChar
        if b.isEmpty then none else some (a, b)
      | _ => none
  | _ => none

/-- `Z1,(?P<addr>\w+),(?P<size>\w+)` (resp. `z1,...` for `lead = 'z'`) at one
position. -/
def matchZ1 (lead : Char) (p : List Char) : Option (List Char × List Char) :=
  match p with
  | z :: '1' :: ',' :: rest =>
    if z = lead then
      let a := rest.takeWhile isWordChar
      if a.isEmpty then none
      else
        match rest.dropWhile isWordChar with
        | ',' :: r2 =>
          let b := r2.takeWhile isWordChar
          if b.isEmpty then none else some (a, b)
        | _ => none
    else none
  | _ => none

/-- `X(?P<addr>\w+),(?P<length>\w+):(?P<data>[01]*)` at one position.  Note
`[01]*` matches the empty string, so the capture is just the maximal `[01]`
prefix of whatever follows the colon — the rest of the payload is not
constrained. -/
def matchX : List Char → Option (List Char × List Char × List Char)
  | 'X' :: rest =>
    let a := rest.takeWhile isWordChar
    if a.isEmpty then none
    else
      match rest.dropWhile isWordChar with
      | ',' :: r2 =>
        let b := r2.takeWhile isWordChar
        if b.isEmpty then none
        else
          match r2.dropWhile isWordChar with
          | ':' :: r3 => some (a, b, r3.takeWhile is01)
          | _ => none
      | _ => none
  | _ => none

/-- Lowercase hex of one nibble. -/
def hexChar (n : Nat) : Char :=
  if n < 10 then Char.ofNat (48 + n) else Char.ofNat (97 + (n - 10))

/-- `format!("{:02x}", byte)`. -/
def hex2 (v : Nat) : List Char := [hexChar (v / 16 % 16), hexChar (v % 16)]

def concatMap (f : Nat → List Char) : List Nat → List Char
  | [] => []
  | b :: bs => f b ++ concatMap f bs

/-- What the stubbed engine returns: core-register values (by selector) and
memory bytes (by address). -/
structure EngOracle where
  regVal : Nat → Nat
  memByte : Nat → Nat

/-- A call the dispatcher makes into the engine, in order. -/
inductive ECall
  | runCall
  | haltCall
  | waitHalted
  | stepCall
  | resetAndHaltCall
  | resetCall
  | readReg (sel : Nat)
  | readBlock (addr len : Nat)
  | writeBlock (addr : Nat) (data : List Char)
  | setBp (addr : Nat)
  | clearBp (addr : Nat)
deriving DecidableEq, Repr

/-- The dispatcher's outcome: the optional reply, whether the worker must
break the session (`D`), the updated `awaits_halt` flag, and the engine calls
made. -/
structure HOut where
  reply : Option (List Char)
  breakDue : Bool
  awaits : Bool
  calls : List ECall
deriving DecidableEq, Repr

/-- Reply of the `p` branch:
`format!("{:02x}{:02x}{:02x}{:02x}", v as u8, (v>>8) as u8, (v>>16) as u8, (v>>24) as u8)`. -/
def pReply (eng : EngOracle) (sel : Nat) : List Char :=
  hex2 (eng.regVal sel % 4294967296 % 256)
    ++ hex2 (eng.regVal sel % 4294967296 / 256 % 256)
    ++ hex2 (eng.regVal sel % 4294967296 / 65536 % 256)
    ++ hex2 (eng.regVal sel % 4294967296 / 16777216 % 256)

/-- Reply of the `m` branch: the `n` bytes read at `addr`, each as `{:02x?}`. -/
def mReply (eng : EngOracle) (addr n : Nat) : List Char :=
  concatMap hex2 ((List.range n).map (fun i => eng.memByte (addr + i) % 256))

/-- The `p` branch: parse the register number as `u8` (`u8::from_str_radix`),
halt, wait for the halted state, read the register, reply with its four bytes
in little-endian order. -/
def pBody (eng : EngOracle) (awaits : Bool) (payload : List Char) : Option HOut :=
  match firstMatch matchP payload with
  | none => none
  | some reg =>
    match from_str_radix_16 255 reg with
    | none => none
    | some sel =>
      some ⟨some (pReply eng sel), false, awaits,
        [ECall.haltCall, ECall.waitHalted, ECall.readReg sel]⟩

/-- The `m` branch: parse length as `usize` and address as `u32`, read that
block, reply with its hex dump. -/
def mBody (eng : EngOracle) (awaits : Bool) (payload : List Char) : Option HOut :=
  match firstMatch matchM payload with
  | none => none
  | some (a, len) =>
    match from_str_radix_16 18446744073709551615 len, from_str_radix_16 4294967295 a with
    | some n, some addr =>
      some ⟨some (mReply eng addr n), false, awaits, [ECall.readBlock addr n]⟩
    | _, _ => none

/-- The `Z1`/`z1` branches: parse the address as `u32` (the size capture is
never parsed), reset-and-halt, wait, set resp. clear the breakpoint, run. -/
def z1Body (lead : Char) (clear : Bool) (awaits : Bool) (payload : List Char) :
    Option HOut :=
  match firstMatch (matchZ1 lead) payload with
  | none => none
  | some (a, _sz) =>
    match from_str_radix_16 4294967295 a with
    | none => none
    | some addr =>
      some ⟨some (str "OK"), false, awaits,
        [ECall.resetAndHaltCall, ECall.waitHalted,
         (if clear then ECall.clearBp addr else ECall.setBp addr), ECall.runCall]⟩

/-- The `X` branch: parse the length as `usize`, slice the **last** `length`
bytes of the raw payload (`&packet.data[packet.data.len() - length..]`, a
panic when `length` exceeds the payload length), parse the address as `u32`,
write the block.  The `[01]*` data capture is never used. -/
def xBody (eng : EngOracle) (awaits : Bool) (payload : List Char) : Option HOut :=
  match firstMatch matchX payload with
  | none => none
  | some (a, len, _data01) =>
    match from_str_radix_16 18446744073709551615 len, from_str_radix_16 4294967295 a with
    | some n, some addr =>
      if n ≤ payload.length then
        some ⟨some (str "OK"), false, awaits,
          [ECall.writeBlock addr (payload.drop (payload.length - n))]⟩
      else none
    | _, _ => none

/-- The fixed memory-map XML served by the worker. -/
def xml : List Char :=
  str "<?xml version=\"1.0\"?>\n<!DOCTYPE memory-map PUBLIC \"+//IDN gnu.org//DTD GDB Memory Map V1.0//EN\" \"http://sourceware.org/gdb/gdb-memory-map.dtd\">\n<memory-map>\n<memory type=\"ram\" start=\"0x20000000\" length=\"0x4000\"/>\n<memory type=\"rom\" start=\"0x00000000\" length=\"0x40000\"/>\n</memory-map>"

/-- `gdb_sanitize_file`: window `data` at `offset`/`len`, prefixing `m` when a
full window was returned and `l` when the window was cut short (or the offset
is past the end). -/
def gdb_sanitize_file (data : List Char) (offset len : Nat) : List Char :=
  if offset > data.length then
    str "l"
  else
    let e := if offset + len > data.length then data.length else offset + len
    let trimmed := (data.drop offset).take (e - offset)
    if len ≤ trimmed.length then 'm' :: trimmed else 'l' :: trimmed

/-- The dispatcher: the `handler` function's prefix-match chain, in source
order (including the `vContb;c`, `vContb;t`, `vContb;s`, `qXfer:memory-mapb:read`
and `qRcmdb,...` prefixes exactly as written in the source, and the two
duplicate unreachable `qTfV` arms).  Invalid packets are dropped without any
action. -/
def handler (eng : EngOracle) (awaits valid : Bool) (payload : List Char) :
    Option HOut :=
  if !valid then some ⟨none, false, awaits, []⟩
  else if pfx (str "qSupported") payload then
    some ⟨some (str "PacketSize=2048;swbreak-;hwbreak+;vContSupported+;qXfer:memory-map:read+"),
      false, awaits, []⟩
  else if pfx (str "vMustReplyEmpty") payload then some ⟨some [], false, awaits, []⟩
  else if pfx (str "qTStatus") payload then some ⟨some [], false, awaits, []⟩
  else if pfx (str "qTfV") payload then some ⟨some [], false, awaits, []⟩
  else if pfx (str "qAttached") payload then some ⟨some (str "1"), false, awaits, []⟩
  else if pfx (str "?") payload then some ⟨some (str "S05"), false, awaits, []⟩
  else if pfx (str "g") payload then some ⟨some (str "xxxxxxxx"), false, awaits, []⟩
  else if pfx (str "p") payload then pBody eng awaits payload
  else if pfx (str "qTsP") payload then some ⟨some [], false, awaits, []⟩
  else if pfx (str "qfThreadInfo") payload then some ⟨some [], false, awaits, []⟩
  else if pfx (str "m") payload then mBody eng awaits payload
  else if pfx (str "qL") payload then some ⟨some [], false, awaits, []⟩
  else if pfx (str "qC") payload then some ⟨some [], false, awaits, []⟩
  else if pfx (str "qOffsets") payload then some ⟨some [], false, awaits, []⟩
  else if pfx (str "vCont?") payload then some ⟨some (str "vCont;c;t;s"), false, awaits, []⟩
  else if pfx (str "vContb;c") payload || pfx (str "c") payload then
    some ⟨none, false, true, [ECall.runCall]⟩
  else if pfx (str "vContb;t") payload then
    some ⟨some (str "OK"), false, false, [ECall.haltCall, ECall.waitHalted]⟩
  else if pfx (str "vContb;s") payload || pfx (str "s") payload then
    some ⟨some (str "S05"), false, false, [ECall.stepCall]⟩
  else if pfx (str "Z0") payload then some ⟨some [], false, awaits, []⟩
  else if pfx (str "Z1") payload then z1Body 'Z' false awaits payload
  else if pfx (str "z1") payload then z1Body 'z' true awaits payload
  else if pfx (str "X") payload then xBody eng awaits payload
  else if pfx (str "qXfer:memory-mapb:read") payload then
    some ⟨some (gdb_sanitize_file xml 0 1000), false, awaits, []⟩
  else if pfx [Char.ofNat 3] payload then
    some ⟨some (str "T05hwbreak:;"), false, awaits, [ECall.haltCall, ECall.waitHalted]⟩
  else if pfx (str "D") payload then some ⟨some (str "OK"), true, awaits, []⟩
  else if pfx (str "qRcmdb,7265736574") payload then
    some ⟨some (str "OK"), false, awaits, [ECall.resetCall, ECall.haltCall]⟩
  else if pfx (str "qTfV") payload then some ⟨some [], false, awaits, []⟩
  else if pfx (str "qTfV") payload then some ⟨some [], false, awaits, []⟩
  else some ⟨some (str "OK"), false, awaits, []⟩

/-- `await_halt`: receives the `awaits_halt` flag **by value** and emits the
unsolicited stop reply when the flag is set and the core reports halted; it
cannot (and does not) clear the worker's flag. -/
def await_halt (awaits halted : Bool) : List (List Char) :=
  if awaits && halted then [str "T05hwbreak:;"] else []

/-- One event the worker's `select!` can wake on: an inbound packet (with the
codec's validity flag) or a halt-poll completion reporting whether
`core_halted()` returned true. -/
inductive WEvent
  | packet (valid : Bool) (payload : List Char)
  | poll (halted : Bool)

/-- The worker loop over a finite schedule of events: packets are dispatched
(stopping at `D` or a panic), polls run `await_halt` with the **current** flag
and leave the flag untouched.  Returns the final `awaits_halt` flag and every
emitted packet in order. -/
def workerRun (eng : EngOracle) : Bool → List WEvent → Option (Bool × List (List Char))
  | awaits, [] => some (awaits, [])
  | awaits, WEvent.poll h :: es =>
    match workerRun eng awaits es with
    | none => none
    | some (a, out) => some (a, await_halt awaits h ++ out)
  | awaits, WEvent.packet v p :: es =>
    match handler eng awaits v p with
    | none => none
    | some o =>
      let rep := match o.reply with | none => [] | some r => [r]
      if o.breakDue then some (o.awaits, rep)
      else
        match workerRun eng o.awaits es with
        | none => none
        | some (a, out) => some (a, rep ++ out)

/-- A concrete stub engine for the closed evaluations below. -/
def eng0 : EngOracle := ⟨fun _ => 0, fun _ => 0⟩

/-! ### Parsing lemmas -/

theorem all_imp_char {p q : Char → Bool} (h : ∀ c, p c = true → q c = true) :
    ∀ {l : List Char}, l.all p = true → l.all q = true := by
  intro l hl
  rw [List.all_eq_true] at hl ⊢
  exact fun c hc => h c (hl c hc)

theorem isWordChar_of_hexDigit {c : Char} (h : isHexDigit c = true) :
    isWordChar c = true := by
  unfold isHexDigit hexDigit at h
  unfold isWordChar
  by_cases h1 : '0' ≤ c ∧ c ≤ '9'
  · exact decide_eq_true (Or.inl h1)
  · rw [if_neg h1] at h
    by_cases h2 : 'a' ≤ c ∧ c ≤ 'f'
    · exact decide_eq_true (Or.inr (Or.inl ⟨h2.1, le_trans h2.2 (by decide)⟩))
    · rw [if_neg h2] at h
      by_cases h3 : 'A' ≤ c ∧ c ≤ 'F'
      · exact decide_eq_true (Or.inr (Or.inr (Or.inl ⟨h3.1, le_trans h3.2 (by decide)⟩)))
      · rw [if_neg h3] at h
        simp at h

theorem takeWhile_all {p : Char → Bool} : ∀ {l : List Char}, l.all p = true →
    l.takeWhile p = l := by
  intro l h
  induction l with
  | nil => rfl
  | cons c cs ih =>
    simp only [List.all_cons, Bool.and_eq_true] at h
    simp [List.takeWhile, h.1, ih h.2]

theorem takeWhile_append_sep (p : Char → Bool) (xs : List Char) (c : Char) (ys : List Char)
    (h : xs.all p = true) (hc : p c = false) :
    (xs ++ c :: ys).takeWhile p = xs := by
  induction xs with
  | nil => simp [List.takeWhile, hc]
  | cons x xs ih =>
    simp only [List.all_cons, Bool.and_eq_true] at h
    simp [List.takeWhile, h.1, ih h.2]

theorem dropWhile_append_sep (p : Char → Bool) (xs : List Char) (c : Char) (ys : List Char)
    (h : xs.all p = true) (hc : p c = false) :
    (xs ++ c :: ys).dropWhile p = c :: ys := by
  induction xs with
  | nil => simp [List.dropWhile, hc]
  | cons x xs ih =>
    simp only [List.all_cons, Bool.and_eq_true] at h
    simp [List.dropWhile, h.1, ih h.2]

theorem matchP_eval (a : List Char) (ha : a.all isWordChar = true) (ha0 : a ≠ []) :
    firstMatch matchP ('p' :: a) = some a := by
  simp [firstMatch, matchP, takeWhile_all ha, ha0]

theorem matchM_eval (a b : List Char) (ha : a.all isWordChar = true) (ha0 : a ≠ [])
    (hb : b.all isWordChar = true) (hb0 : b ≠ []) :
    firstMatch matchM ('m' :: (a ++ ',' :: b)) = some (a, b) := by
  simp [firstMatch, matchM, takeWhile_append_sep isWordChar a ',' b ha (by decide),
    dropWhile_append_sep isWordChar a ',' b ha (by decide), takeWhile_all hb, ha0, hb0]

theorem matchZ1_eval (lead : Char) (a b : List Char)
    (ha : a.all isWordChar = true) (ha0 : a ≠ [])
    (hb : b.all isWordChar = true) (hb0 : b ≠ []) :
    firstMatch (matchZ1 lead) (lead :: '1' :: ',' :: (a ++ ',' :: b)) = some (a, b) := by
  simp [firstMatch, matchZ1, takeWhile_append_sep isWordChar a ',' b ha (by decide),
    dropWhile_append_sep isWordChar a ',' b ha (by decide), takeWhile_all hb, ha0, hb0]

theorem matchX_eval (a b t : List Char)
    (ha : a.all isWordChar = true) (ha0 : a ≠ [])
    (hb : b.all isWordChar = true) (hb0 : b ≠ []) :
    firstMatch matchX ('X' :: (a ++ ',' :: b ++ ':' :: t))
      = some (a, b, t.takeWhile is01) := by
  simp [firstMatch, matchX,
    takeWhile_append_sep isWordChar a ',' (b ++ ':' :: t) ha (by decide),
    dropWhile_append_sep isWordChar a ',' (b ++ ':' :: t) ha (by decide),
    takeWhile_append_sep isWordChar b ':' t hb (by decide),
    dropWhile_append_sep isWordChar b ':' t hb (by decide), ha0, hb0]

/-! ### `from_str_radix` characterization -/

theorem foldl_hex_ge : ∀ (s : List Char) (a : Nat),
    a ≤ s.foldl (fun x c => x * 16 + (hexDigit c).getD 0) a := by
  intro s
  induction s with
  | nil => intro a; simp
  | cons c cs ih =>
    intro a
    rw [List.foldl_cons]
    exact le_trans (by omega) (ih (a * 16 + (hexDigit c).getD 0))

theorem foldl_opt_none (bound : Nat) : ∀ s : List Char,
    s.foldl
      (fun acc c =>
        match acc, hexDigit c with
        | some a, some d => if a * 16 + d ≤ bound then some (a * 16 + d) else none
        | _, _ => none)
      none
    = none := by
  intro s
  induction s with
  | nil => rfl
  | cons c cs ih => simpa [List.foldl_cons] using ih

theorem from_str_radix_char (bound : Nat) :
    ∀ (s : List Char) (a : Nat), s.all isHexDigit = true → a ≤ bound →
      s.foldl
        (fun acc c =>
          match acc, hexDigit c with
          | some x, some d => if x * 16 + d ≤ bound then some (x * 16 + d) else none
          | _, _ => none)
        (some a)
      = (if s.foldl (fun x c => x * 16 + (hexDigit c).getD 0) a ≤ bound
         then some (s.foldl (fun x c => x * 16 + (hexDigit c).getD 0) a) else none) := by
  intro s
  induction s with
  | nil =>
    intro a _ hab
    simp [hab]
  | cons c cs ih =>
    intro a hall hab
    simp only [List.all_cons, Bool.and_eq_true] at hall
    have hsome : (hexDigit c).isSome = true := by
      have := hall.1
      unfold isHexDigit at this
      exact this
    obtain ⟨d, hd⟩ := Option.isSome_iff_exists.mp hsome
    rw [List.foldl_cons, List.foldl_cons, hd]
    simp only [Option.getD_some]
    by_cases hb2 : a * 16 + d ≤ bound
    · simp only [hb2, if_true, ite_true]
      exact ih (a * 16 + d) hall.2 hb2
    · simp only [hb2, if_false, ite_false]
      rw [foldl_opt_none]
      have hge := foldl_hex_ge cs (a * 16 + d)
      rw [if_neg (by omega)]

theorem from_str_radix_16_eq (bound : Nat) (s : List Char)
    (hs : s.all isHexDigit = true) (h0 : s ≠ []) :
    from_str_radix_16 bound s
      = (if hexVal s ≤ bound then some (hexVal s) else none) := by
  unfold from_str_radix_16 hexVal
  rw [if_neg (by simp [h0])]
  exact from_str_radix_char bound s 0 hs (Nat.zero_le bound)

/-! ### Branch-body evaluations -/

theorem pBody_eval (eng : EngOracle) (awaits : Bool) (a : List Char)
    (ha : a.all isHexDigit = true) (ha0 : a ≠ []) :
    pBody eng awaits ('p' :: a)
      = (if hexVal a ≤ 255
         then some ⟨some (pReply eng (hexVal a)), false, awaits,
             [ECall.haltCall, ECall.waitHalted, ECall.readReg (hexVal a)]⟩
         else none) := by
  have haw : a.all isWordChar = true := all_imp_char (fun c => isWordChar_of_hexDigit) ha
  unfold pBody
  simp only [matchP_eval a haw ha0, from_str_radix_16_eq 255 a ha ha0]
  by_cases hv : hexVal a ≤ 255 <;> simp [hv]

theorem mBody_eval (eng : EngOracle) (awaits : Bool) (a b : List Char)
    (ha : a.all isHexDigit = true) (ha0 : a ≠ []) (hav : hexVal a ≤ 4294967295)
    (hb : b.all isHexDigit = true) (hb0 : b ≠ []) (hbv : hexVal b ≤ 18446744073709551615) :
    mBody eng awaits ('m' :: (a ++ ',' :: b))
      = some ⟨some (mReply eng (hexVal a) (hexVal b)), false, awaits,
          [ECall.readBlock (hexVal a) (hexVal b)]⟩ := by
  have haw : a.all isWordChar = true := all_imp_char (fun c => isWordChar_of_hexDigit) ha
  have hbw : b.all isWordChar = true := all_imp_char (fun c => isWordChar_of_hexDigit) hb
  unfold mBody
  simp only [matchM_eval a b haw ha0 hbw hb0,
    from_str_radix_16_eq 18446744073709551615 b hb hb0,
    from_str_radix_16_eq 4294967295 a ha ha0, if_pos hbv, if_pos hav]

theorem z1Body_eval (lead : Char) (clear : Bool) (awaits : Bool) (a b : List Char)
    (ha : a.all isHexDigit = true) (ha0 : a ≠ []) (hav : hexVal a ≤ 4294967295)
    (hb : b.all isWordChar = true) (hb0 : b ≠ []) :
    z1Body lead clear awaits (lead :: '1' :: ',' :: (a ++ ',' :: b))
      = some ⟨some (str "OK"), false, awaits,
          [ECall.resetAndHaltCall, ECall.waitHalted,
           (if clear then ECall.clearBp (hexVal a) else ECall.setBp (hexVal a)),
           ECall.runCall]⟩ := by
  have haw : a.all isWordChar = true := all_imp_char (fun c => isWordChar_of_hexDigit) ha
  unfold z1Body
  simp only [matchZ1_eval lead a b haw ha0 hb hb0,
    from_str_radix_16_eq 4294967295 a ha ha0, if_pos hav]

theorem xBody_eval (eng : EngOracle) (awaits : Bool) (a b t : List Char) (na nb : Nat)
    (haw : a.all isWordChar = true) (ha0 : a ≠ [])
    (hbw : b.all isWordChar = true) (hb0 : b ≠ [])
    (hna : from_str_radix_16 4294967295 a = some na)
    (hnb : from_str_radix_16 18446744073709551615 b = some nb) :
    xBody eng awaits ('X' :: (a ++ ',' :: b ++ ':' :: t))
      = (if nb ≤ ('X' :: (a ++ ',' :: b ++ ':' :: t)).length
         then some ⟨some (str "OK"), false, awaits,
             [ECall.writeBlock na (('X' :: (a ++ ',' :: b ++ ':' :: t)).drop
               (('X' :: (a ++ ',' :: b ++ ':' :: t)).length - nb))]⟩
         else none) := by
  unfold xBody
  simp only [matchX_eval a b t haw ha0 hbw hb0, hna, hnb]

/-! ### Claim C2: the halt notification is not one-shot -/

/-- C2 (evaluation at the failing schedule): after a single `c` packet (one
run → halt transition) and two halt polls that both see the core halted, the
worker emits the unsolicited `T05hwbreak:;` stop reply **twice** and
`awaits_halt` is still `true` afterwards — `await_halt` receives the flag by
value and can never clear it, so one transition does not mean one reply. -/
theorem stop_reply_repeats_every_poll :
    workerRun eng0 false
        [WEvent.packet true (str "c"), WEvent.poll true, WEvent.poll true]
      = some (true, [str "T05hwbreak:;", str "T05hwbreak:;"]) := by decide

/-! ### Claim C3: the continue command -/

/-- C3 counterexample: a valid packet whose payload is literally `vCont;c`
reaches the default arm — the dispatcher replies `OK`, calls nothing and
leaves `awaits_halt` false, because the source matches the prefix `vContb;c`
(with a stray `b`), not `vCont;c`. -/
theorem vcont_c_counterexample :
    handler eng0 false true (str "vCont;c")
        = some ⟨some (str "OK"), false, false, []⟩ ∧
    ¬ handler eng0 false true (str "vCont;c")
        = some ⟨none, false, true, [ECall.runCall]⟩ :=
  ⟨by decide, by decide⟩

/-- C3 (amended): for every valid packet whose payload starts with `c` or with
the source's literal prefix `vContb;c`, the dispatcher calls `run()`, sets
`awaits_halt := true` and produces no reply. -/
theorem continue_runs_and_sets_await (eng : EngOracle) (awaits : Bool) (rest : List Char) :
    handler eng awaits true ('c' :: rest) = some ⟨none, false, true, [ECall.runCall]⟩ ∧
    handler eng awaits true (str "vContb;c" ++ rest)
      = some ⟨none, false, true, [ECall.runCall]⟩ :=
  ⟨rfl, rfl⟩

/-! ### Claim C8: the memory-map transfer -/

/-- The windowing rule exactly as the specification words it: with `S` the
XML bytes, `o` the offset and `n` the length — if `o > |S|` return `l`, else
with `e = min(o+n, |S|)` and `slice = S[o..e]`, prepend `m` when
`|slice| ≥ n` and `l` otherwise. -/
def specWindow (S : List Char) (o n : Nat) : List Char :=
  if o > S.length then str "l"
  else
    let e := min (o + n) S.length
    let slice := (S.drop o).take (e - o)
    if n ≤ slice.length then 'm' :: slice else 'l' :: slice

set_option maxRecDepth 4000 in
/-- C8 counterexample: a valid packet with the spec's prefix
`qXfer:memory-map:read` (and explicit offset `0x18`, length `0x2c`) falls
through to the default arm and is answered `OK`, not with a window of the
XML. -/
theorem memory_map_counterexample :
    handler eng0 false true (str "qXfer:memory-map:read:0:18,2c")
        = some ⟨some (str "OK"), false, false, []⟩ ∧
    ¬ handler eng0 false true (str "qXfer:memory-map:read:0:18,2c")
        = some ⟨some (specWindow xml 0x18 0x2c), false, false, []⟩ := by
  refine ⟨by decide, ?_⟩
  decide

set_option maxRecDepth 4000 in
/-- C8 (amended): the dispatcher serves the memory map on the source's literal
prefix `qXfer:memory-mapb:read`, always windowed at offset 0 and length 1000
(the packet's own offset and length are ignored); `gdb_sanitize_file` itself
implements exactly the windowing rule of the spec, and on the fixed XML the
reply is `l` followed by the whole file. -/
theorem memory_map_window (eng : EngOracle) (awaits : Bool) (rest : List Char)
    (data : List Char) (o n : Nat) :
    handler eng awaits true (str "qXfer:memory-mapb:read" ++ rest)
      = some ⟨some (gdb_sanitize_file xml 0 1000), false, awaits, []⟩ ∧
    gdb_sanitize_file data o n = specWindow data o n ∧
    gdb_sanitize_file xml 0 1000 = 'l' :: xml := by
  refine ⟨rfl, ?_, by decide⟩
  simp only [gdb_sanitize_file, specWindow]
  by_cases ho : o > data.length
  · simp [ho]
  · simp only [ho, if_false, ite_false]
    have he : (if o + n > data.length then data.length else o + n)
        = min (o + n) data.length := by
      rcases Nat.le_total (o + n) data.length with h | h
      · rw [if_neg (by omega), Nat.min_eq_left h]
      · rw [Nat.min_eq_right h]
        by_cases h2 : o + n > data.length
        · rw [if_pos h2]
        · rw [if_neg h2]; omega
    rw [he]

/-! ### Claim C9: hex-field parsing widths -/

/-- C9 counterexample: the `p` command parses its register field with
`u8::from_str_radix`, so the three-digit hex string `100` — whose value
`0x100 = 256` fits comfortably in 32 bits — overflows the `u8` parse and the
handler panics (no reply) instead of accepting it. -/
theorem hex_width_counterexample :
    handler eng0 false true (str "p100") = none ∧ (0x100 : Nat) < 2 ^ 32 :=
  ⟨by decide, by decide⟩

/-- C9 (amended): for `m`, `Z1`, `z1` and `X`, every numeric field consisting
of hex digits of either case is accepted whenever its value fits in 32 bits
(one digit up to eight digits alike), and the parsed value is the one the
engine call receives; for `p` the register field is parsed as an 8-bit
integer, so exactly the hex strings with value below 256 are accepted and
larger values panic.  Parsing is case-insensitive (`aB` and `Ab` parse
alike). -/
theorem hex_fields_accepted (eng : EngOracle) (awaits : Bool) (a b t : List Char)
    (ha : a.all isHexDigit = true) (ha0 : a ≠ []) (hav : hexVal a ≤ 4294967295)
    (hb : b.all isHexDigit = true) (hb0 : b ≠ []) (hbv : hexVal b ≤ 4294967295) :
    handler eng awaits true ('m' :: (a ++ ',' :: b))
        = some ⟨some (mReply eng (hexVal a) (hexVal b)), false, awaits,
            [ECall.readBlock (hexVal a) (hexVal b)]⟩ ∧
    (hexVal a ≤ 255 →
      handler eng awaits true ('p' :: a)
        = some ⟨some (pReply eng (hexVal a)), false, awaits,
            [ECall.haltCall, ECall.waitHalted, ECall.readReg (hexVal a)]⟩) ∧
    (255 < hexVal a → handler eng awaits true ('p' :: a) = none) ∧
    handler eng awaits true ('Z' :: '1' :: ',' :: (a ++ ',' :: b))
        = some ⟨some (str "OK"), false, awaits,
            [ECall.resetAndHaltCall, ECall.waitHalted, ECall.setBp (hexVal a),
             ECall.runCall]⟩ ∧
    handler eng awaits true ('z' :: '1' :: ',' :: (a ++ ',' :: b))
        = some ⟨some (str "OK"), false, awaits,
            [ECall.resetAndHaltCall, ECall.waitHalted, ECall.clearBp (hexVal a),
             ECall.runCall]⟩ ∧
    (hexVal b ≤ ('X' :: (a ++ ',' :: b ++ ':' :: t)).length →
      handler eng awaits true ('X' :: (a ++ ',' :: b ++ ':' :: t))
        = some ⟨some (str "OK"), false, awaits,
            [ECall.writeBlock (hexVal a) (('X' :: (a ++ ',' :: b ++ ':' :: t)).drop
              (('X' :: (a ++ ',' :: b ++ ':' :: t)).length - hexVal b))]⟩) ∧
    from_str_radix_16 4294967295 (str "aB") = from_str_radix_16 4294967295 (str "Ab") := by
  have hbw : b.all isWordChar = true := all_imp_char (fun c => isWordChar_of_hexDigit) hb
  have haw : a.all isWordChar = true := all_imp_char (fun c => isWordChar_of_hexDigit) ha
  refine ⟨?_, ?_, ?_, ?_, ?_, ?_, by decide⟩
  · have hchain : handler eng awaits true ('m' :: (a ++ ',' :: b))
        = mBody eng awaits ('m' :: (a ++ ',' :: b)) := rfl
    rw [hchain, mBody_eval eng awaits a b ha ha0 hav hb hb0 (le_trans hbv (by norm_num))]
  · intro hp
    have hchain : handler eng awaits true ('p' :: a) = pBody eng awaits ('p' :: a) := rfl
    rw [hchain, pBody_eval eng awaits a ha ha0, if_pos hp]
  · intro hp
    have hchain : handler eng awaits true ('p' :: a) = pBody eng awaits ('p' :: a) := rfl
    rw [hchain, pBody_eval eng awaits a ha ha0, if_neg (by omega)]
  · have hchain : handler eng awaits true ('Z' :: '1' :: ',' :: (a ++ ',' :: b))
        = z1Body 'Z' false awaits ('Z' :: '1' :: ',' :: (a ++ ',' :: b)) := rfl
    rw [hchain, z1Body_eval 'Z' false awaits a b ha ha0 hav hbw hb0]
    rfl
  · have hchain : handler eng awaits true ('z' :: '1' :: ',' :: (a ++ ',' :: b))
        = z1Body 'z' true awaits ('z' :: '1' :: ',' :: (a ++ ',' :: b)) := rfl
    rw [hchain, z1Body_eval 'z' true awaits a b ha ha0 hav hbw hb0]
    rfl
  · intro hlen
    have hchain : handler eng awaits true ('X' :: (a ++ ',' :: b ++ ':' :: t))
        = xBody eng awaits ('X' :: (a ++ ',' :: b ++ ':' :: t)) := rfl
    rw [hchain, xBody_eval eng awaits a b t (hexVal a) (hexVal b) haw ha0 hbw hb0
      (by rw [from_str_radix_16_eq 4294967295 a ha ha0, if_pos hav])
      (by rw [from_str_radix_16_eq 18446744073709551615 b hb hb0,
        if_pos (le_trans hbv (by norm_num))]),
      if_pos hlen]

/-- Witness for C9: the mixed-case two-digit fields `7F` and `a` are accepted
by `m` (reading 10 bytes at address 0x7F); `p7F` is accepted since
`0x7F < 256`. -/
theorem hex_fields_accepted_witness :
    handler eng0 false true ('m' :: (['7', 'F'] ++ ',' :: ['a']))
      = some ⟨some (mReply eng0 (hexVal ['7', 'F']) (hexVal ['a'])), false, false,
          [ECall.readBlock (hexVal ['7', 'F']) (hexVal ['a'])]⟩ ∧
    handler eng0 false true ('p' :: ['7', 'F'])
      = some ⟨some (pReply eng0 (hexVal ['7', 'F'])), false, false,
          [ECall.haltCall, ECall.waitHalted, ECall.readReg (hexVal ['7', 'F'])]⟩ :=
  let h := hex_fields_accepted eng0 false ['7', 'F'] ['a'] [] (by decide) (by decide)
    (by decide) (by decide) (by decide) (by decide)
  ⟨h.1, h.2.1 (by decide)⟩

/-! ### Claim C10: the X packet accepts arbitrary data -/

/-- C10 counterexample: the valid packet `X0,1:2` carries the byte `2` — not
in `[01]` — after the colon, yet the handler returns normally: it replies `OK`
and writes the final byte of the raw payload, because the `[01]*` capture may
match the empty string and the parse succeeds regardless of the data. -/
theorem x_binary_counterexample :
    handler eng0 false true (str "X0,1:2")
        = some ⟨some (str "OK"), false, false, [ECall.writeBlock 0 ['2']]⟩ ∧
    ¬ handler eng0 false true (str "X0,1:2") = none :=
  ⟨by decide, by decide⟩

/-- C10 (amended): for every payload `X<addr>,<len>:<tail>` with word-run
address and length fields, the regex parse succeeds for **every** tail — the
`[01]*` data capture simply takes the maximal `[01]` prefix, possibly empty —
and whenever the two numeric fields parse and the length does not exceed the
payload, the handler returns normally, replying `OK` and writing the last
`len` bytes of the raw payload; the `X` command is in no way restricted to
`0`/`1` data bytes. -/
theorem x_packet_parses_any_tail (eng : EngOracle) (awaits : Bool) (a b t : List Char)
    (haw : a.all isWordChar = true) (ha0 : a ≠ [])
    (hbw : b.all isWordChar = true) (hb0 : b ≠ []) :
    firstMatch matchX ('X' :: (a ++ ',' :: b ++ ':' :: t))
      = some (a, b, t.takeWhile is01) ∧
    (∀ na nb, from_str_radix_16 4294967295 a = some na →
      from_str_radix_16 18446744073709551615 b = some nb →
      nb ≤ ('X' :: (a ++ ',' :: b ++ ':' :: t)).length →
      handler eng awaits true ('X' :: (a ++ ',' :: b ++ ':' :: t))
        = some ⟨some (str "OK"), false, awaits,
            [ECall.writeBlock na (('X' :: (a ++ ',' :: b ++ ':' :: t)).drop
              (('X' :: (a ++ ',' :: b ++ ':' :: t)).length - nb))]⟩) := by
  refine ⟨matchX_eval a b t haw ha0 hbw hb0, ?_⟩
  intro na nb hna hnb hlen
  have hchain : handler eng awaits true ('X' :: (a ++ ',' :: b ++ ':' :: t))
      = xBody eng awaits ('X' :: (a ++ ',' :: b ++ ':' :: t)) := rfl
  rw [hchain, xBody_eval eng awaits a b t na nb haw ha0 hbw hb0 hna hnb, if_pos hlen]

/-- Witness for C10: the packet `X0,1:2` parses with an empty `[01]` capture
and the handler writes the byte `2`. -/
theorem x_packet_parses_any_tail_witness :
    firstMatch matchX ('X' :: (['0'] ++ ',' :: ['1'] ++ ':' :: ['2']))
      = some (['0'], ['1'], []) ∧
    handler eng0 false true ('X' :: (['0'] ++ ',' :: ['1'] ++ ':' :: ['2']))
      = some ⟨some (str "OK"), false, false, [ECall.writeBlock 0 ['2']]⟩ :=
  let h := x_packet_parses_any_tail eng0 false ['0'] ['1'] ['2'] (by decide) (by decide)
    (by decide) (by decide)
  ⟨h.1.trans (by decide), (h.2 0 1 (by decide) (by decide) (by decide)).trans (by decide)⟩

end Gdb
